import Mathlib

/-!
# Verification of the PDF data-extraction pipeline (`src/main.py`)

Shallow embedding of the single-file Python program that extracts structured
data from PDF documents: text acquisition (`get_pdf_content`), prompt
construction and model-service call (`extract_data_from_pdf`), persistence
(`setup_database` / `insert_document_data`), and the orchestrating loop
(`main`).

Modelling conventions:
* Python `str` values are modelled as `List Char`.
* Python exceptions are modelled by the `PyErr` type; a fallible operation
  returns `Except PyErr α`.  The orchestrator catches every `PyErr`.
* The external world (PDF parsing by `pypdf`, the HTTP response from the
  model service, the wall clock feeding `datetime.now()`) is supplied as
  explicit parameters.
* JSON values are modelled by the inductive `Json`; numbers are modelled as
  integers (the embedding does not model floating point).
-/

/-- The Python exceptions that can escape the per-document pipeline.
All of them are subclasses of `Exception` and are caught by the
`except Exception` clause of `main`. -/
inductive PyErr where
  /-- `IndexError` from a bad list subscript. -/
  | indexError : PyErr
  /-- `AttributeError` from calling `.get` on a non-dict. -/
  | attributeError : PyErr
  /-- `KeyError` from subscripting a dict with an absent key. -/
  | keyError : PyErr
  /-- `TypeError` (e.g. `json.loads` applied to a non-string). -/
  | typeError : PyErr
  /-- `requests.HTTPError` raised by `response.raise_for_status()`. -/
  | httpError : PyErr
  /-- `json.JSONDecodeError` from `json.loads` / `response.json()`. -/
  | jsonDecodeError : PyErr
  /-- `pypdf.errors.PdfReadError`: the byte stream is not a parseable PDF
  (the spec's `ExtractionIOError`). -/
  | pdfReadError : PyErr
deriving DecidableEq, Repr

/-! ## Python string splitting

`str.split(sep)` for a one-character separator: splits at every occurrence
of the separator and keeps empty segments, so the result is always
non-empty (`"".split('.') == ['']`). -/

/-- Model of Python `s.split(sep)` for a single-character separator `c`. -/
def splitOnChar (c : Char) : List Char → List (List Char)
  | [] => [[]]
  | x :: xs =>
    match splitOnChar c xs with
    | [] => [[]]
    | y :: ys => if x = c then [] :: y :: ys else (x :: y) :: ys

theorem splitOnChar_ne_nil (c : Char) (l : List Char) : splitOnChar c l ≠ [] := by
  cases l with
  | nil => simp [splitOnChar]
  | cons x xs =>
    simp only [splitOnChar]
    cases h : splitOnChar c xs with
    | nil => simp
    | cons y ys =>
      by_cases hx : x = c <;> simp [hx]

theorem splitOnChar_of_not_mem {c : Char} {l : List Char} (h : c ∉ l) :
    splitOnChar c l = [l] := by
  induction l with
  | nil => rfl
  | cons x xs ih =>
    simp only [List.mem_cons, not_or] at h
    simp only [splitOnChar, ih h.2]
    have hx : ¬ x = c := fun hh => h.1 hh.symm
    simp [hx]

/-- Splitting distributes over an occurrence of the separator. -/
theorem splitOnChar_append_sep (c : Char) (a b : List Char) :
    splitOnChar c (a ++ c :: b) = splitOnChar c a ++ splitOnChar c b := by
  induction a with
  | nil =>
    simp only [List.nil_append, splitOnChar]
    cases h : splitOnChar c b with
    | nil => exact absurd h (splitOnChar_ne_nil c b)
    | cons y ys => simp
  | cons x xs ih =>
    simp only [List.cons_append, splitOnChar]
    cases h : splitOnChar c xs with
    | nil => exact absurd h (splitOnChar_ne_nil c xs)
    | cons y ys =>
      rw [h] at ih
      simp only [List.cons_append] at ih
      simp only [List.append_eq]
      rw [ih]
      by_cases hx : x = c <;> simp [hx]

/-- The last element of a non-empty list of segments (Python's `l[-1]` on the
result of a `split`, which is always non-empty). -/
def pyLast : List (List Char) → List Char
  | [] => []
  | [a] => a
  | _ :: b :: l => pyLast (b :: l)

theorem pyLast_cons_cons (a b : List Char) (l : List (List Char)) :
    pyLast (a :: b :: l) = pyLast (b :: l) := rfl

/-- Appending a separator-free suffix does not change how many segments a
split produces. -/
theorem length_splitOnChar_append {c : Char} {w : List Char} (hw : c ∉ w)
    (xs : List Char) :
    (splitOnChar c (xs ++ w)).length = (splitOnChar c xs).length := by
  induction xs with
  | nil => simp [splitOnChar_of_not_mem hw, splitOnChar]
  | cons u us ihu =>
    simp only [List.cons_append, splitOnChar]
    cases hU : splitOnChar c (us ++ w) with
    | nil => exact absurd hU (splitOnChar_ne_nil c _)
    | cons p ps =>
      cases hV : splitOnChar c us with
      | nil => exact absurd hV (splitOnChar_ne_nil c _)
      | cons q qs =>
        rw [hU, hV] at ihu
        by_cases hu : u = c <;> simp_all

/-- The last segment of a split of `d ++ w`, where the suffix `w` contains no
separator, is the last segment of the split of `d` extended by `w`. -/
theorem pyLast_splitOnChar_append {c : Char} (d : List Char) {w : List Char}
    (hw : c ∉ w) :
    pyLast (splitOnChar c (d ++ w)) = pyLast (splitOnChar c d) ++ w := by
  induction d with
  | nil =>
    simp [splitOnChar_of_not_mem hw, splitOnChar, pyLast]
  | cons x xs ih =>
    have hlen := length_splitOnChar_append hw xs
    simp only [List.cons_append, splitOnChar]
    cases hA : splitOnChar c (xs ++ w) with
    | nil => exact absurd hA (splitOnChar_ne_nil c _)
    | cons y ys =>
      cases hB : splitOnChar c xs with
      | nil => exact absurd hB (splitOnChar_ne_nil c _)
      | cons z zs =>
        rw [hA, hB] at ih
        rw [hA, hB] at hlen
        simp only [List.length_cons, Nat.add_right_cancel_iff] at hlen
        by_cases hx : x = c
        · simp only [hx, if_pos rfl, pyLast_cons_cons]
          exact ih
        · simp only [if_neg hx]
          cases ys with
          | nil =>
            cases zs with
            | nil =>
              simp only [pyLast] at ih ⊢
              simp [ih]
            | cons z' zs' => simp at hlen
          | cons y' ys' =>
            cases zs with
            | nil => simp at hlen
            | cons z' zs' =>
              simp only [pyLast_cons_cons] at ih ⊢
              exact ih

/-! ## Python list indexing -/

/-- Model of Python list subscripting `l[i]` with negative-index support:
`l[i]` is `l[i + len(l)]` for negative `i`, and raises `IndexError` when the
adjusted index is out of range. -/
def pyIndex {α : Type} (l : List α) (i : Int) : Except PyErr α :=
  let j : Int := if i < 0 then i + l.length else i
  if 0 ≤ j then
    match l[j.toNat]? with
    | some x => .ok x
    | none => .error .indexError
  else .error .indexError

theorem pyIndex_zero {α : Type} (x : α) (l : List α) :
    pyIndex (x :: l) 0 = .ok x := by
  simp [pyIndex]

theorem getLast?_eq_pyLast (l : List (List Char)) (h : l ≠ []) :
    l.getLast? = some (pyLast l) := by
  induction l with
  | nil => exact absurd rfl h
  | cons a l ih =>
    cases l with
    | nil => simp [pyLast]
    | cons b l' =>
      rw [List.getLast?_cons_cons, pyLast_cons_cons]
      exact ih (by simp)

theorem pyIndex_neg_one_eq_pyLast (l : List (List Char)) (h : l ≠ []) :
    pyIndex l (-1) = .ok (pyLast l) := by
  have hlen : 1 ≤ l.length := by
    cases l with
    | nil => exact absurd rfl h
    | cons a l' => simp
  have hj : ((-1 : Int) + l.length).toNat = l.length - 1 := by omega
  have hj0 : (0 : Int) ≤ -1 + l.length := by omega
  simp only [pyIndex, if_pos (by omega : (-1 : Int) < 0), if_pos hj0, hj]
  rw [← List.getLast?_eq_getElem? l, getLast?_eq_pyLast l h]

/-- Python `l[-2]` on a list of the form `P ++ [e]` with `P` non-empty
selects the last element of `P`. -/
theorem pyIndex_neg_two_append_singleton (P : List (List Char))
    (e : List Char) (h : P ≠ []) :
    pyIndex (P ++ [e]) (-2) = .ok (pyLast P) := by
  have hlen : 1 ≤ P.length := by
    cases P with
    | nil => exact absurd rfl h
    | cons a l' => simp
  have hlena : (P ++ [e]).length = P.length + 1 := by simp
  have hj : ((-2 : Int) + (P ++ [e]).length).toNat = P.length - 1 := by
    rw [hlena]; omega
  have hj0 : (0 : Int) ≤ -2 + (P ++ [e]).length := by rw [hlena]; omega
  simp only [pyIndex, if_pos (by omega : (-2 : Int) < 0), if_pos hj0, hj]
  rw [List.getElem?_append_left (by omega : P.length - 1 < P.length)]
  rw [← List.getLast?_eq_getElem? P, getLast?_eq_pyLast P h]

/-! ## Document-type derivation (src/main.py line 61)

`document_type = filename.split('.')[-2].split('/')[-1] if '/' in filename
                 else filename.split('.')[0]` -/

/-- The document-type hint derived from the filename, exactly as computed by
`extract_data_from_pdf` before building the prompt. -/
def deriveDocumentType (filename : List Char) : Except PyErr (List Char) :=
  if '/' ∈ filename then do
    let p ← pyIndex (splitOnChar '.' filename) (-2)
    pyIndex (splitOnChar '/' p) (-1)
  else
    pyIndex (splitOnChar '.' filename) 0

theorem pyLast_append_singleton (X : List (List Char)) (s : List Char) :
    pyLast (X ++ [s]) = s := by
  induction X with
  | nil => rfl
  | cons a X ih =>
    cases X with
    | nil => rfl
    | cons b X' => exact ih

/-- A filename that contains `'/'` but no `'.'` makes the derivation raise
`IndexError`: the dot-split is a one-element list and Python's `[-2]`
subscript is out of range. -/
theorem deriveDocumentType_slash_no_dot {f : List Char}
    (hs : '/' ∈ f) (hd : '.' ∉ f) :
    deriveDocumentType f = .error .indexError := by
  rw [deriveDocumentType, if_pos hs, splitOnChar_of_not_mem hd]
  have : pyIndex [f] (-2) = .error .indexError := by
    simp [pyIndex]
  rw [this]
  rfl

/-- A filename that contains a `'.'` always yields a document type (so the
`IndexError` of `deriveDocumentType_slash_no_dot` is unreachable from `main`,
which only passes paths ending in `.pdf`). -/
theorem deriveDocumentType_ok_of_dot {f : List Char} (hd : '.' ∈ f) :
    ∃ t, deriveDocumentType f = .ok t := by
  by_cases hs : '/' ∈ f
  · rw [deriveDocumentType, if_pos hs]
    obtain ⟨a, b, rfl⟩ := List.append_of_mem hd
    rw [splitOnChar_append_sep]
    have ha := splitOnChar_ne_nil '.' a
    have hb := splitOnChar_ne_nil '.' b
    have hlen : 2 ≤ (splitOnChar '.' a ++ splitOnChar '.' b).length := by
      rw [List.length_append]
      cases hA : splitOnChar '.' a with
      | nil => exact absurd hA ha
      | cons x xs =>
        cases hB : splitOnChar '.' b with
        | nil => exact absurd hB hb
        | cons y ys => simp; omega
    set parts := splitOnChar '.' a ++ splitOnChar '.' b with hparts
    have hj : ((-2 : Int) + parts.length).toNat = parts.length - 2 := by omega
    have hj0 : (0 : Int) ≤ -2 + parts.length := by omega
    have hidx : parts.length - 2 < parts.length := by omega
    obtain ⟨q, hq⟩ : ∃ q, pyIndex parts (-2) = .ok q := by
      refine ⟨parts[parts.length - 2], ?_⟩
      simp only [pyIndex, if_pos (by omega : (-2 : Int) < 0), if_pos hj0, hj,
        List.getElem?_eq_getElem hidx]
    obtain ⟨t, ht⟩ : ∃ t, pyIndex (splitOnChar '/' q) (-1) = .ok t :=
      ⟨_, pyIndex_neg_one_eq_pyLast _ (splitOnChar_ne_nil '/' q)⟩
    refine ⟨t, ?_⟩
    rw [hq]
    simpa [Except.bind] using ht
  · rw [deriveDocumentType, if_neg hs]
    cases hA : splitOnChar '.' f with
    | nil => exact absurd hA (splitOnChar_ne_nil '.' f)
    | cons x xs => exact ⟨x, pyIndex_zero x xs⟩

/-- With a directory part, a dot-free stem and a dot-free extension, the
derivation produces the stem of the last path segment. -/
theorem deriveDocumentType_slash (d s e : List Char)
    (hs1 : '/' ∉ s) (hs2 : '.' ∉ s) (_he1 : '/' ∉ e) (he2 : '.' ∉ e) :
    deriveDocumentType (d ++ '/' :: (s ++ '.' :: e)) = .ok s := by
  have hmem : '/' ∈ d ++ '/' :: (s ++ '.' :: e) := by simp
  rw [deriveDocumentType, if_pos hmem]
  have hre : d ++ '/' :: (s ++ '.' :: e) = (d ++ '/' :: s) ++ '.' :: e := by
    simp
  rw [hre, splitOnChar_append_sep, splitOnChar_of_not_mem he2]
  have hP := splitOnChar_ne_nil '.' (d ++ '/' :: s)
  rw [pyIndex_neg_two_append_singleton _ _ hP]
  have hw : '.' ∉ ('/' :: s) := by
    intro hmem'
    rcases List.mem_cons.mp hmem' with h | h
    · exact absurd h.symm (by decide)
    · exact hs2 h
  rw [show (Except.ok (pyLast (splitOnChar '.' (d ++ '/' :: s))) >>= fun p =>
        pyIndex (splitOnChar '/' p) (-1)) =
      pyIndex (splitOnChar '/' (pyLast (splitOnChar '.' (d ++ '/' :: s)))) (-1) from rfl]
  rw [pyLast_splitOnChar_append d hw]
  have hre2 : pyLast (splitOnChar '.' d) ++ '/' :: s =
      (pyLast (splitOnChar '.' d)) ++ '/' :: s := rfl
  rw [splitOnChar_append_sep '/' (pyLast (splitOnChar '.' d)) s,
    splitOnChar_of_not_mem hs1]
  rw [pyIndex_neg_one_eq_pyLast _ (by simp), pyLast_append_singleton]

/-- Without a directory part, the derivation produces the portion of the
filename before its FIRST dot. -/
theorem deriveDocumentType_no_slash (s e : List Char)
    (hs : '.' ∉ s) (hf : '/' ∉ s ++ '.' :: e) :
    deriveDocumentType (s ++ '.' :: e) = .ok s := by
  rw [deriveDocumentType, if_neg hf, splitOnChar_append_sep,
    splitOnChar_of_not_mem hs]
  cases hB : splitOnChar '.' e with
  | nil => exact absurd hB (splitOnChar_ne_nil '.' e)
  | cons y ys => exact pyIndex_zero s _

/-! ## JSON values

Model of the JSON-like Python values that flow through the pipeline
(`json.loads` output, `json.dumps` input).  Python dicts are modelled as
insertion-ordered association lists; numbers are modelled as integers. -/

inductive Json where
  | null : Json
  | bool (b : Bool) : Json
  | num (n : Int) : Json
  | str (s : List Char) : Json
  | arr (items : List Json) : Json
  | obj (fields : List (List Char × Json)) : Json

/-- First value bound to key `k` in an association list (Python dict lookup;
keys are unique in any list that came from an actual dict). -/
def lookupField (kvs : List (List Char × Json)) (k : List Char) : Option Json :=
  match kvs with
  | [] => none
  | (k', v) :: rest => if k' = k then some v else lookupField rest k

/-- Python `d.get(key, default)`: dict lookup with a default, raising
`AttributeError` when the receiver is not a dict. -/
def pyGet (v : Json) (k : List Char) (default : Json) : Except PyErr Json :=
  match v with
  | .obj kvs => .ok ((lookupField kvs k).getD default)
  | _ => .error .attributeError

/-- Python `v[0]` on a decoded JSON value. -/
def pyIndexZero : Json → Except PyErr Json
  | .arr [] => .error .indexError
  | .arr (x :: _) => .ok x
  | .str [] => .error .indexError
  | .str (c :: _) => .ok (.str [c])
  | .obj _ => .error .keyError
  | _ => .error .typeError

/-! ### Serialization: model of `json.dumps`

`json.dumps` with its default options: `ensure_ascii=True` (non-ASCII
characters are `\uXXXX`-escaped, astral characters as surrogate pairs),
item separator `", "`, key separator `": "`, insertion order preserved. -/

def hexDigitChar : Nat → Char
  | 0 => '0' | 1 => '1' | 2 => '2' | 3 => '3' | 4 => '4'
  | 5 => '5' | 6 => '6' | 7 => '7' | 8 => '8' | 9 => '9'
  | 10 => 'a' | 11 => 'b' | 12 => 'c' | 13 => 'd' | 14 => 'e' | _ => 'f'

/-- The `\uXXXX` escape for a code unit below `0x10000`. -/
def uEscape (n : Nat) : List Char :=
  ['\\', 'u', hexDigitChar (n / 4096 % 16), hexDigitChar (n / 256 % 16),
   hexDigitChar (n / 16 % 16), hexDigitChar (n % 16)]

/-- How `json.dumps` (with `ensure_ascii=True`) renders one character of a
string. -/
def escapeChar (c : Char) : List Char :=
  if c = '"' then ['\\', '"']
  else if c = '\\' then ['\\', '\\']
  else if c = '\n' then ['\\', 'n']
  else if c = '\t' then ['\\', 't']
  else if c = '\r' then ['\\', 'r']
  else if c = '\x08' then ['\\', 'b']
  else if c = '\x0c' then ['\\', 'f']
  else if 0x20 ≤ c.toNat ∧ c.toNat ≤ 0x7e then [c]
  else if c.toNat < 0x10000 then uEscape c.toNat
  else
    uEscape (0xd800 + (c.toNat - 0x10000) / 0x400) ++
      uEscape (0xdc00 + (c.toNat - 0x10000) % 0x400)

def escapeStr : List Char → List Char
  | [] => []
  | c :: s => escapeChar c ++ escapeStr s

/-- Little-endian decimal digits, by structural recursion on a fuel bound so
that the kernel can evaluate it. -/
def natDigitsAux : Nat → Nat → List Nat
  | 0, _ => []
  | fuel + 1, n => if n = 0 then [] else n % 10 :: natDigitsAux fuel (n / 10)

theorem natDigitsAux_eq_digits (fuel n : Nat) (h : n ≤ fuel) :
    natDigitsAux fuel n = Nat.digits 10 n := by
  induction fuel generalizing n with
  | zero =>
    interval_cases n
    simp [natDigitsAux]
  | succ fuel ih =>
    by_cases hn : n = 0
    · simp [natDigitsAux, hn]
    · rw [natDigitsAux, if_neg hn, ih (n / 10) (by omega),
        Nat.digits_def' (by norm_num : 1 < 10) (Nat.pos_of_ne_zero hn)]

/-- Decimal digits of `n`, most significant first. -/
def natToChars (n : Nat) : List Char :=
  if n = 0 then ['0'] else ((natDigitsAux n n).map hexDigitChar).reverse

theorem natToChars_eq (n : Nat) :
    natToChars n = if n = 0 then ['0'] else ((Nat.digits 10 n).map hexDigitChar).reverse := by
  rw [natToChars, natDigitsAux_eq_digits n n le_rfl]

/-- Python `repr` of an int, as used by `json.dumps` for numbers. -/
def intToChars (n : Int) : List Char :=
  if n < 0 then '-' :: natToChars n.natAbs else natToChars n.toNat

/-- A serialized JSON string literal: `"..."` with escaping. -/
def dumpsStr (s : List Char) : List Char :=
  '"' :: escapeStr s ++ ['"']

mutual
/-- Model of Python `json.dumps` with default options (see above). -/
def dumps : Json → List Char
  | .null => ['n', 'u', 'l', 'l']
  | .num n => intToChars n
  | .bool true => ['t', 'r', 'u', 'e']
  | .str s => dumpsStr s
  | .bool false => ['f', 'a', 'l', 's', 'e']
  | .arr [] => ['[', ']']
  | .arr (v :: vs) => '[' :: (dumps v ++ dumpsItems vs) ++ [']']
  | .obj [] => ['\x7b', '\x7d']
  | .obj ((k, v) :: kvs) =>
      '\x7b' :: (dumpsStr k ++ ':' :: ' ' :: dumps v ++ dumpsFields kvs) ++ ['\x7d']

/-- The remaining elements of an array, each preceded by `", "`. -/
def dumpsItems : List Json → List Char
  | [] => []
  | v :: vs => ',' :: ' ' :: (dumps v ++ dumpsItems vs)

/-- The remaining key/value pairs of an object, each preceded by `", "`. -/
def dumpsFields : List (List Char × Json) → List Char
  | [] => []
  | (k, v) :: kvs =>
      ',' :: ' ' :: (dumpsStr k ++ ':' :: ' ' :: dumps v ++ dumpsFields kvs)
end

/-- No key occurs twice. -/
def allDistinct : List (List Char) → Bool
  | [] => true
  | k :: ks => (!ks.contains k) && allDistinct ks

mutual
/-- A value is well-formed when every object inside it has pairwise-distinct
keys — the invariant every value obtained from a Python dict satisfies. -/
def Json.wf : Json → Bool
  | .null => true
  | .bool _ => true
  | .num _ => true
  | .str _ => true
  | .arr vs => Json.wfItems vs
  | .obj kvs => allDistinct (kvs.map Prod.fst) && Json.wfFields kvs

def Json.wfItems : List Json → Bool
  | [] => true
  | v :: vs => v.wf && Json.wfItems vs

def Json.wfFields : List (List Char × Json) → Bool
  | [] => true
  | (_, v) :: kvs => v.wf && Json.wfFields kvs
end

/-! ### Deserialization: model of `json.loads`

Restricted to the values representable by `Json` (integer numbers; no
floats or exponents).  Strings are modelled over Unicode scalar values
(Lean `Char`), so a `\uXXXX` escape is decoded on its own when it is not a
surrogate and as a combined code point when it is a high/low surrogate
pair — exactly the forms `json.dumps` emits. -/

/-- The whitespace characters `json.loads` skips between tokens. -/
def isWs (c : Char) : Bool :=
  c = ' ' || c = '\t' || c = '\n' || c = '\r'

def skipWs (l : List Char) : List Char := l.dropWhile isWs

/-- Numeric value of a decimal digit character. -/
def charVal (c : Char) : Nat := c.toNat - 48

/-- Numeric value of a hexadecimal digit character, if it is one. -/
def hexVal (c : Char) : Option Nat :=
  if '0' ≤ c ∧ c ≤ '9' then some (c.toNat - 48)
  else if 'a' ≤ c ∧ c ≤ 'f' then some (c.toNat - 87)
  else if 'A' ≤ c ∧ c ≤ 'F' then some (c.toNat - 55)
  else none

/-- Parse a JSON unsigned integer literal (no leading zeros). -/
def parseNat (l : List Char) : Except PyErr (Nat × List Char) :=
  match l.takeWhile Char.isDigit with
  | [] => .error .jsonDecodeError
  | d :: ds =>
    if d = '0' ∧ ds ≠ [] then .error .jsonDecodeError
    else .ok ((d :: ds).foldl (fun a c => 10 * a + charVal c) 0,
      l.dropWhile Char.isDigit)

/-- Parse the body of a JSON string literal after the opening quote, up to
and including the closing quote; rejects raw control characters (strict
mode) and undecodable escapes. -/
def parseStringBody : List Char → Except PyErr (List Char × List Char)
  | [] => .error .jsonDecodeError
  | '"' :: rest => .ok ([], rest)
  | '\\' :: esc =>
    match esc with
    | '"' :: r => (parseStringBody r).map (fun p => ('"' :: p.1, p.2))
    | '\\' :: r => (parseStringBody r).map (fun p => ('\\' :: p.1, p.2))
    | '/' :: r => (parseStringBody r).map (fun p => ('/' :: p.1, p.2))
    | 'n' :: r => (parseStringBody r).map (fun p => ('\n' :: p.1, p.2))
    | 't' :: r => (parseStringBody r).map (fun p => ('\t' :: p.1, p.2))
    | 'r' :: r => (parseStringBody r).map (fun p => ('\r' :: p.1, p.2))
    | 'b' :: r => (parseStringBody r).map (fun p => ('\x08' :: p.1, p.2))
    | 'f' :: r => (parseStringBody r).map (fun p => ('\x0c' :: p.1, p.2))
    | 'u' :: h1 :: h2 :: h3 :: h4 :: r =>
      match hexVal h1, hexVal h2, hexVal h3, hexVal h4 with
      | some a, some b, some c, some d =>
        let n := 4096 * a + 256 * b + 16 * c + d
        if 0xd800 ≤ n ∧ n < 0xdc00 then
          match r with
          | '\\' :: 'u' :: g1 :: g2 :: g3 :: g4 :: r2 =>
            match hexVal g1, hexVal g2, hexVal g3, hexVal g4 with
            | some a', some b', some c', some d' =>
              let m := 4096 * a' + 256 * b' + 16 * c' + d'
              if 0xdc00 ≤ m ∧ m < 0xe000 then
                (parseStringBody r2).map (fun p =>
                  (Char.ofNat (0x10000 + (n - 0xd800) * 0x400 + (m - 0xdc00)) :: p.1, p.2))
              else .error .jsonDecodeError
            | _, _, _, _ => .error .jsonDecodeError
          | _ => .error .jsonDecodeError
        else if 0xdc00 ≤ n ∧ n < 0xe000 then .error .jsonDecodeError
        else (parseStringBody r).map (fun p => (Char.ofNat n :: p.1, p.2))
      | _, _, _, _ => .error .jsonDecodeError
    | _ => .error .jsonDecodeError
  | c :: rest =>
    if c.toNat < 0x20 then .error .jsonDecodeError
    else (parseStringBody rest).map (fun p => (c :: p.1, p.2))

mutual
/-- Fueled recursive-descent parser for one JSON value (leading whitespace
allowed); returns the value and the unconsumed input. -/
def parseVal : Nat → List Char → Except PyErr (Json × List Char)
  | 0, _ => .error .jsonDecodeError
  | fuel + 1, l =>
    match skipWs l with
    | 'n' :: 'u' :: 'l' :: 'l' :: rest => .ok (.null, rest)
    | 't' :: 'r' :: 'u' :: 'e' :: rest => .ok (.bool true, rest)
    | 'f' :: 'a' :: 'l' :: 's' :: 'e' :: rest => .ok (.bool false, rest)
    | '"' :: rest => (parseStringBody rest).map (fun p => (.str p.1, p.2))
    | '-' :: rest => (parseNat rest).map (fun p => (.num (-(p.1 : Int)), p.2))
    | '[' :: rest =>
      match skipWs rest with
      | ']' :: rest2 => .ok (.arr [], rest2)
      | _ => (parseItems fuel rest).map (fun p => (.arr p.1, p.2))
    | '\x7b' :: rest =>
      match skipWs rest with
      | '\x7d' :: rest2 => .ok (.obj [], rest2)
      | _ => (parseFields fuel rest).map (fun p => (.obj p.1, p.2))
    | l' => (parseNat l').map (fun p => (.num (p.1 : Int), p.2))

/-- Parse the elements of a non-empty array after the opening bracket, up to
and including the closing bracket. -/
def parseItems : Nat → List Char → Except PyErr (List Json × List Char)
  | 0, _ => .error .jsonDecodeError
  | fuel + 1, l =>
    match parseVal fuel l with
    | .error e => .error e
    | .ok (v, rest) =>
      match skipWs rest with
      | ',' :: rest2 => (parseItems fuel rest2).map (fun p => (v :: p.1, p.2))
      | ']' :: rest2 => .ok ([v], rest2)
      | _ => .error .jsonDecodeError

/-- Parse the key/value pairs of a non-empty object after the opening brace,
up to and including the closing brace. -/
def parseFields : Nat → List Char → Except PyErr (List (List Char × Json) × List Char)
  | 0, _ => .error .jsonDecodeError
  | fuel + 1, l =>
    match skipWs l with
    | '"' :: rest =>
      match parseStringBody rest with
      | .error e => .error e
      | .ok (k, rest2) =>
        match skipWs rest2 with
        | ':' :: rest3 =>
          match parseVal fuel rest3 with
          | .error e => .error e
          | .ok (v, rest4) =>
            match skipWs rest4 with
            | ',' :: rest5 => (parseFields fuel rest5).map (fun p => ((k, v) :: p.1, p.2))
            | '\x7d' :: rest5 => .ok ([(k, v)], rest5)
            | _ => .error .jsonDecodeError
        | _ => .error .jsonDecodeError
    | _ => .error .jsonDecodeError
end

/-- Model of Python `json.loads`: parse a complete JSON document, allowing
surrounding whitespace and rejecting trailing data. -/
def loads (s : List Char) : Except PyErr Json :=
  match parseVal (s.length + 1) s with
  | .error e => .error e
  | .ok (v, rest) => if skipWs rest = [] then .ok v else .error .jsonDecodeError

/-! ### Round-trip: `loads` is a left inverse of `dumps` -/

theorem charVal_hexDigitChar {d : Nat} (h : d < 10) :
    charVal (hexDigitChar d) = d := by
  interval_cases d <;> decide

theorem isDigit_hexDigitChar {d : Nat} (h : d < 10) :
    (hexDigitChar d).isDigit = true := by
  interval_cases d <;> decide

theorem hexDigitChar_ne_zero {d : Nat} (h : d < 10) (h0 : d ≠ 0) :
    hexDigitChar d ≠ '0' := by
  interval_cases d <;> simp_all <;> decide

theorem hexVal_hexDigitChar {d : Nat} (h : d < 16) :
    hexVal (hexDigitChar d) = some d := by
  interval_cases d <;> decide

theorem takeWhile_append_all {α : Type} (p : α → Bool) (ds rest : List α)
    (h1 : ∀ c ∈ ds, p c = true) (h2 : ∀ c, rest.head? = some c → p c = false) :
    (ds ++ rest).takeWhile p = ds ∧ (ds ++ rest).dropWhile p = rest := by
  induction ds with
  | nil =>
    simp only [List.nil_append]
    cases rest with
    | nil => simp
    | cons c r =>
      have := h2 c rfl
      simp [List.takeWhile_cons, List.dropWhile_cons, this]
  | cons d ds ih =>
    have hd := h1 d (by simp)
    have hrec := ih (fun c hc => h1 c (by simp [hc]))
    simp [List.takeWhile_cons, List.dropWhile_cons, hd, hrec.1, hrec.2]

theorem foldl_digits_chars (L : List Nat) (hL : ∀ d ∈ L, d < 10) (a0 : Nat) :
    ((L.map hexDigitChar).reverse).foldl (fun a c => 10 * a + charVal c) a0
      = a0 * 10 ^ L.length + Nat.ofDigits 10 L := by
  induction L generalizing a0 with
  | nil => simp [Nat.ofDigits_nil]
  | cons d L' ih =>
    have hd := hL d (by simp)
    have hall : ∀ x ∈ L', x < 10 := fun x hx => hL x (by simp [hx])
    simp only [List.map_cons, List.reverse_cons, List.foldl_append, List.foldl_cons,
      List.foldl_nil]
    rw [ih hall a0, charVal_hexDigitChar hd, Nat.ofDigits_cons, List.length_cons]
    ring

theorem natToChars_head (n : Nat) :
    ∃ d cs, natToChars n = hexDigitChar d :: cs ∧ d < 10 ∧ (n ≠ 0 → d ≠ 0) := by
  by_cases hn : n = 0
  · subst hn
    exact ⟨0, [], rfl, by norm_num, fun h => absurd rfl h⟩
  · rw [natToChars_eq, if_neg hn]
    have hne : Nat.digits 10 n ≠ [] := Nat.digits_ne_nil_iff_ne_zero.mpr hn
    have hlast : (Nat.digits 10 n).getLast hne ≠ 0 := Nat.getLast_digit_ne_zero 10 hn
    have h1 : ((Nat.digits 10 n).map hexDigitChar).reverse.head?
        = some (hexDigitChar ((Nat.digits 10 n).getLast hne)) := by
      rw [List.head?_reverse, List.getLast?_map, List.getLast?_eq_getLast _ hne]
      rfl
    cases hc : ((Nat.digits 10 n).map hexDigitChar).reverse with
    | nil => rw [hc] at h1; simp at h1
    | cons c cs =>
      rw [hc] at h1
      simp only [List.head?_cons, Option.some.injEq] at h1
      refine ⟨(Nat.digits 10 n).getLast hne, cs, ?_, ?_, fun _ => hlast⟩
      · rw [h1]
      · exact Nat.digits_lt_base (by norm_num) (List.getLast_mem hne)

theorem natToChars_all_digits (n : Nat) :
    ∀ c ∈ natToChars n, c.isDigit = true := by
  rw [natToChars_eq]
  by_cases hn : n = 0
  · subst hn
    intro c hc
    simp at hc
    subst hc
    decide
  · rw [if_neg hn]
    intro c hc
    rw [List.mem_reverse, List.mem_map] at hc
    obtain ⟨d, hd, rfl⟩ := hc
    exact isDigit_hexDigitChar (Nat.digits_lt_base (by norm_num) hd)

theorem foldl_natToChars (n : Nat) :
    (natToChars n).foldl (fun a c => 10 * a + charVal c) 0 = n := by
  by_cases hn : n = 0
  · simp [hn, natToChars]
    decide
  · rw [natToChars_eq, if_neg hn,
      foldl_digits_chars _ (fun d hd => Nat.digits_lt_base (by norm_num) hd) 0,
      Nat.ofDigits_digits]
    ring

theorem parseNat_natToChars (n : Nat) (rest : List Char)
    (hrest : ∀ c, rest.head? = some c → c.isDigit = false) :
    parseNat (natToChars n ++ rest) = .ok (n, rest) := by
  obtain ⟨tw, dw⟩ :=
    takeWhile_append_all Char.isDigit (natToChars n) rest (natToChars_all_digits n) hrest
  obtain ⟨d, cs, hcons, hd10, hd0⟩ := natToChars_head n
  have hmain : parseNat (natToChars n ++ rest) =
      (if hexDigitChar d = '0' ∧ cs ≠ [] then Except.error PyErr.jsonDecodeError
       else Except.ok ((hexDigitChar d :: cs).foldl (fun a c => 10 * a + charVal c) 0, rest)) := by
    simp only [parseNat, tw, dw]
    rw [hcons]
  rw [hmain]
  have hcond : ¬(hexDigitChar d = '0' ∧ cs ≠ []) := by
    by_cases hn : n = 0
    · have : natToChars n = ['0'] := by simp [hn, natToChars]
      rw [hcons] at this
      intro hk
      exact hk.2 (by injection this)
    · intro hk
      exact hexDigitChar_ne_zero hd10 (hd0 hn) hk.1
  rw [if_neg hcond, ← hcons, foldl_natToChars]

set_option maxHeartbeats 1000000 in
theorem parseStringBody_uEscape (n : Nat) (hn : n < 0x10000)
    (hsur : ¬(0xd800 ≤ n ∧ n < 0xe000)) (X : List Char) :
    parseStringBody (uEscape n ++ X)
      = (parseStringBody X).map (fun p => (Char.ofNat n :: p.1, p.2)) := by
  rw [show uEscape n ++ X = '\\' :: 'u' :: hexDigitChar (n / 4096 % 16) ::
      hexDigitChar (n / 256 % 16) :: hexDigitChar (n / 16 % 16) ::
      hexDigitChar (n % 16) :: X from rfl]
  simp only [parseStringBody]
  rw [hexVal_hexDigitChar (by omega), hexVal_hexDigitChar (by omega),
    hexVal_hexDigitChar (by omega), hexVal_hexDigitChar (by omega)]
  have hval : 4096 * (n / 4096 % 16) + 256 * (n / 256 % 16) + 16 * (n / 16 % 16) + n % 16 = n := by
    omega
  simp only [hval]
  rw [if_neg (by omega), if_neg (by omega)]

set_option maxHeartbeats 1000000 in
theorem parseStringBody_surrogatePair (n m : Nat) (hn : 0xd800 ≤ n) (hn2 : n < 0xdc00)
    (hm : 0xdc00 ≤ m) (hm2 : m < 0xe000) (X : List Char) :
    parseStringBody (uEscape n ++ uEscape m ++ X)
      = (parseStringBody X).map
          (fun p => (Char.ofNat (0x10000 + (n - 0xd800) * 0x400 + (m - 0xdc00)) :: p.1, p.2)) := by
  rw [show uEscape n ++ uEscape m ++ X = '\\' :: 'u' :: hexDigitChar (n / 4096 % 16) ::
      hexDigitChar (n / 256 % 16) :: hexDigitChar (n / 16 % 16) ::
      hexDigitChar (n % 16) :: '\\' :: 'u' :: hexDigitChar (m / 4096 % 16) ::
      hexDigitChar (m / 256 % 16) :: hexDigitChar (m / 16 % 16) ::
      hexDigitChar (m % 16) :: X from rfl]
  simp only [parseStringBody]
  rw [hexVal_hexDigitChar (by omega), hexVal_hexDigitChar (by omega),
    hexVal_hexDigitChar (by omega), hexVal_hexDigitChar (by omega)]
  have hvn : 4096 * (n / 4096 % 16) + 256 * (n / 256 % 16) + 16 * (n / 16 % 16) + n % 16 = n := by
    omega
  simp only [hvn]
  rw [if_pos (by omega : 0xd800 ≤ n ∧ n < 0xdc00)]
  rw [hexVal_hexDigitChar (by omega), hexVal_hexDigitChar (by omega),
    hexVal_hexDigitChar (by omega), hexVal_hexDigitChar (by omega)]
  have hvm : 4096 * (m / 4096 % 16) + 256 * (m / 256 % 16) + 16 * (m / 16 % 16) + m % 16 = m := by
    omega
  simp only [hvm]
  rw [if_pos (by omega : 0xdc00 ≤ m ∧ m < 0xe000)]

theorem parseStringBody_printable (c : Char) (h1 : c ≠ '"') (h2 : c ≠ '\\')
    (h3 : ¬ c.toNat < 0x20) (X : List Char) :
    parseStringBody (c :: X) = (parseStringBody X).map (fun p => (c :: p.1, p.2)) := by
  rw [parseStringBody.eq_def]
  split <;> simp_all

theorem parseStringBody_quote (X : List Char) :
    parseStringBody ('\\' :: '"' :: X)
      = (parseStringBody X).map (fun p => ('"' :: p.1, p.2)) := by
  simp only [parseStringBody]

theorem parseStringBody_backslash (X : List Char) :
    parseStringBody ('\\' :: '\\' :: X)
      = (parseStringBody X).map (fun p => ('\\' :: p.1, p.2)) := by
  simp only [parseStringBody]

theorem parseStringBody_newline (X : List Char) :
    parseStringBody ('\\' :: 'n' :: X)
      = (parseStringBody X).map (fun p => ('\n' :: p.1, p.2)) := by
  simp only [parseStringBody]

theorem parseStringBody_tab (X : List Char) :
    parseStringBody ('\\' :: 't' :: X)
      = (parseStringBody X).map (fun p => ('\t' :: p.1, p.2)) := by
  simp only [parseStringBody]

theorem parseStringBody_cr (X : List Char) :
    parseStringBody ('\\' :: 'r' :: X)
      = (parseStringBody X).map (fun p => ('\r' :: p.1, p.2)) := by
  simp only [parseStringBody]

theorem parseStringBody_backspace (X : List Char) :
    parseStringBody ('\\' :: 'b' :: X)
      = (parseStringBody X).map (fun p => ('\x08' :: p.1, p.2)) := by
  simp only [parseStringBody]

theorem parseStringBody_formfeed (X : List Char) :
    parseStringBody ('\\' :: 'f' :: X)
      = (parseStringBody X).map (fun p => ('\x0c' :: p.1, p.2)) := by
  simp only [parseStringBody]

/-- Unicode-scalar-value bounds for any `Char`. -/
theorem char_toNat_valid (c : Char) :
    c.toNat < 0xd800 ∨ (0xe000 ≤ c.toNat ∧ c.toNat < 0x110000) := by
  have := c.valid
  simp [UInt32.isValidChar, Nat.isValidChar, Char.toNat] at this
  exact this

/-- Parsing undoes escaping: the body parser consumes the escaped string and
the closing quote and returns the original characters. -/
theorem parseStringBody_escape (s rest : List Char) :
    parseStringBody (escapeStr s ++ '"' :: rest) = .ok (s, rest) := by
  induction s with
  | nil => rfl
  | cons c s ih =>
    have hval := char_toNat_valid c
    rw [show escapeStr (c :: s) ++ '"' :: rest
        = escapeChar c ++ (escapeStr s ++ '"' :: rest) from by
      simp [escapeStr]]
    by_cases h1 : c = '"'
    · subst h1
      rw [show escapeChar '"' ++ (escapeStr s ++ '"' :: rest)
          = '\\' :: '"' :: (escapeStr s ++ '"' :: rest) from rfl,
        parseStringBody_quote, ih]
      rfl
    by_cases h2 : c = '\\'
    · subst h2
      rw [show escapeChar '\\' ++ (escapeStr s ++ '"' :: rest)
          = '\\' :: '\\' :: (escapeStr s ++ '"' :: rest) from rfl,
        parseStringBody_backslash, ih]
      rfl
    by_cases h3 : c = '\n'
    · subst h3
      rw [show escapeChar '\n' ++ (escapeStr s ++ '"' :: rest)
          = '\\' :: 'n' :: (escapeStr s ++ '"' :: rest) from rfl,
        parseStringBody_newline, ih]
      rfl
    by_cases h4 : c = '\t'
    · subst h4
      rw [show escapeChar '\t' ++ (escapeStr s ++ '"' :: rest)
          = '\\' :: 't' :: (escapeStr s ++ '"' :: rest) from rfl,
        parseStringBody_tab, ih]
      rfl
    by_cases h5 : c = '\r'
    · subst h5
      rw [show escapeChar '\r' ++ (escapeStr s ++ '"' :: rest)
          = '\\' :: 'r' :: (escapeStr s ++ '"' :: rest) from rfl,
        parseStringBody_cr, ih]
      rfl
    by_cases h6 : c = '\x08'
    · subst h6
      rw [show escapeChar '\x08' ++ (escapeStr s ++ '"' :: rest)
          = '\\' :: 'b' :: (escapeStr s ++ '"' :: rest) from rfl,
        parseStringBody_backspace, ih]
      rfl
    by_cases h7 : c = '\x0c'
    · subst h7
      rw [show escapeChar '\x0c' ++ (escapeStr s ++ '"' :: rest)
          = '\\' :: 'f' :: (escapeStr s ++ '"' :: rest) from rfl,
        parseStringBody_formfeed, ih]
      rfl
    by_cases h8 : 0x20 ≤ c.toNat ∧ c.toNat ≤ 0x7e
    · have hesc : escapeChar c = [c] := by
        rw [escapeChar, if_neg h1, if_neg h2, if_neg h3, if_neg h4, if_neg h5,
          if_neg h6, if_neg h7, if_pos h8]
      rw [hesc, List.singleton_append,
        parseStringBody_printable c h1 h2 (by omega), ih]
      rfl
    by_cases h9 : c.toNat < 0x10000
    · have hesc : escapeChar c = uEscape c.toNat := by
        rw [escapeChar, if_neg h1, if_neg h2, if_neg h3, if_neg h4, if_neg h5,
          if_neg h6, if_neg h7, if_neg h8, if_pos h9]
      rw [hesc, parseStringBody_uEscape c.toNat h9 (by omega), ih]
      simp only [Except.map, Char.ofNat_toNat]
    · have hesc : escapeChar c
          = uEscape (0xd800 + (c.toNat - 0x10000) / 0x400)
            ++ uEscape (0xdc00 + (c.toNat - 0x10000) % 0x400) := by
        rw [escapeChar, if_neg h1, if_neg h2, if_neg h3, if_neg h4, if_neg h5,
          if_neg h6, if_neg h7, if_neg h8, if_neg h9]
      rw [hesc,
        parseStringBody_surrogatePair _ _ (by omega) (by omega) (by omega)
          (by omega), ih]
      have hcomb : 0x10000
          + (0xd800 + (c.toNat - 0x10000) / 0x400 - 0xd800) * 0x400
          + (0xdc00 + (c.toNat - 0x10000) % 0x400 - 0xdc00) = c.toNat := by
        omega
      simp only [Except.map, hcomb, Char.ofNat_toNat]

theorem skipWs_of_head {x : List Char}
    (hx : ∀ c, x.head? = some c → isWs c = false) : skipWs x = x := by
  cases x with
  | nil => rfl
  | cons c r =>
    have := hx c rfl
    simp [skipWs, List.dropWhile_cons, this]

theorem skipWs_append_ws (sp x : List Char) (hsp : ∀ c ∈ sp, isWs c = true)
    (hx : ∀ c, x.head? = some c → isWs c = false) : skipWs (sp ++ x) = x := by
  induction sp with
  | nil => exact skipWs_of_head hx
  | cons c sp ih =>
    have hc := hsp c (by simp)
    have := ih (fun c hc => hsp c (by simp [hc]))
    simp only [skipWs, List.cons_append, List.dropWhile_cons, hc]
    exact this

/-- The serialized form of any value starts with a character that is not
whitespace, not `']'` and not `'\x7d'`. -/
theorem dumps_head (v : Json) :
    ∃ c cs, dumps v = c :: cs ∧ isWs c = false ∧ c ≠ ']' ∧ c ≠ '\x7d' := by
  have hprops : ∀ c : Char, c ∈ (['n', 't', 'f', '-', '"', '[', '\x7b'] : List Char) →
      isWs c = false ∧ c ≠ ']' ∧ c ≠ '\x7d' := by decide
  cases v with
  | null => exact ⟨'n', _, rfl, hprops 'n' (by decide)⟩
  | bool b =>
    cases b with
    | true => exact ⟨'t', _, rfl, hprops 't' (by decide)⟩
    | false => exact ⟨'f', _, rfl, hprops 'f' (by decide)⟩
  | num n =>
    rw [show dumps (.num n) = intToChars n from rfl, intToChars]
    by_cases hneg : n < 0
    · rw [if_pos hneg]
      exact ⟨'-', _, rfl, hprops '-' (by decide)⟩
    · rw [if_neg hneg]
      obtain ⟨d, cs, hcons, hd10, _⟩ := natToChars_head n.toNat
      refine ⟨hexDigitChar d, cs, hcons, ?_, ?_, ?_⟩ <;>
        (interval_cases d <;> decide)
  | str s => exact ⟨'"', _, rfl, hprops '"' (by decide)⟩
  | arr items =>
    cases items with
    | nil => exact ⟨'[', _, rfl, hprops '[' (by decide)⟩
    | cons x xs => exact ⟨'[', _, rfl, hprops '[' (by decide)⟩
  | obj kvs =>
    cases kvs with
    | nil => exact ⟨'\x7b', _, rfl, hprops '\x7b' (by decide)⟩
    | cons kv kvs =>
      obtain ⟨k, v⟩ := kv
      exact ⟨'\x7b', _, rfl, hprops '\x7b' (by decide)⟩

mutual
/-- Fuel sufficient for `parseVal` to parse the serialization of `v`. -/
def needVal : Json → Nat
  | .null => 1
  | .bool _ => 1
  | .num _ => 1
  | .str _ => 1
  | .arr [] => 1
  | .arr (v :: vs) => 1 + needItems (v :: vs)
  | .obj [] => 1
  | .obj (kv :: kvs) => 1 + needFields (kv :: kvs)

/-- Fuel sufficient for `parseItems` on a serialized non-empty item list. -/
def needItems : List Json → Nat
  | [] => 1
  | v :: vs => 1 + max (needVal v) (needItems vs)

/-- Fuel sufficient for `parseFields` on serialized non-empty fields. -/
def needFields : List (List Char × Json) → Nat
  | [] => 1
  | (_, v) :: kvs => 1 + max (needVal v) (needFields kvs)
end

theorem one_le_needVal (v : Json) : 1 ≤ needVal v := by
  cases v with
  | arr items => cases items <;> simp [needVal]
  | obj kvs => cases kvs with
    | nil => simp [needVal]
    | cons kv kvs => obtain ⟨k, v⟩ := kv; simp [needVal]
  | _ => simp [needVal]

set_option maxHeartbeats 1000000 in
/-- On digit-headed input, `parseVal` falls through to the number branch. -/
theorem parseVal_digit (fuel : Nat) (c : Char) (hc : c.isDigit = true)
    (cs : List Char) :
    parseVal (fuel + 1) (c :: cs)
      = (parseNat (c :: cs)).map (fun p => (Json.num (p.1 : Int), p.2)) := by
  have hnw : skipWs (c :: cs) = c :: cs := by
    apply skipWs_of_head
    intro x hx
    simp only [List.head?_cons, Option.some.injEq] at hx
    subst hx
    have h1 : c ≠ ' ' := by rintro rfl; revert hc; decide
    have h2 : c ≠ '\t' := by rintro rfl; revert hc; decide
    have h3 : c ≠ '\n' := by rintro rfl; revert hc; decide
    have h4 : c ≠ '\r' := by rintro rfl; revert hc; decide
    simp [isWs, h1, h2, h3, h4]
  simp only [parseVal]
  rw [hnw]
  split <;> simp_all

theorem skipWs_append_ws_any (sp X : List Char) (hsp : ∀ c ∈ sp, isWs c = true) :
    skipWs (sp ++ X) = skipWs X := by
  induction sp with
  | nil => rfl
  | cons c sp ih =>
    have hc := hsp c (by simp)
    simp only [skipWs, List.cons_append, List.dropWhile_cons, hc]
    exact ih (fun x hx => hsp x (by simp [hx]))

set_option maxHeartbeats 1000000 in
theorem parseVal_bracket (f : Nat) (c : Char) (hcw : isWs c = false)
    (hcr : c ≠ ']') (cs : List Char) :
    parseVal (f + 1) ('[' :: c :: cs)
      = (parseItems f (c :: cs)).map (fun p => (Json.arr p.1, p.2)) := by
  simp only [parseVal]
  rw [show skipWs ('[' :: c :: cs) = '[' :: c :: cs from skipWs_of_head
    (by intro x h; simp at h; subst h; decide)]
  have hskip : skipWs (c :: cs) = c :: cs := skipWs_of_head
    (by intro x h; simp at h; subst h; exact hcw)
  split
  · rename_i heq; injection heq with h1 _; exact absurd h1 (by decide)
  · rename_i heq; injection heq with h1 _; exact absurd h1 (by decide)
  · rename_i heq; injection heq with h1 _; exact absurd h1 (by decide)
  · rename_i heq; injection heq with h1 _; exact absurd h1 (by decide)
  · rename_i heq; injection heq with h1 _; exact absurd h1 (by decide)
  · rename_i heq
    injection heq with _ h2
    subst h2
    rw [hskip]
    split
    · rename_i heq2
      injection heq2 with h3 _
      exact absurd h3 hcr
    · rfl
  · rename_i heq; injection heq with h1 _; exact absurd h1 (by decide)
  · rename_i h1 h2 h3 h4 h5 h6 h7
    exact absurd rfl (h6 (c :: cs))

set_option maxHeartbeats 1000000 in
theorem parseVal_brace (f : Nat) (c : Char) (hcw : isWs c = false)
    (hcb : c ≠ '\x7d') (cs : List Char) :
    parseVal (f + 1) ('\x7b' :: c :: cs)
      = (parseFields f (c :: cs)).map (fun p => (Json.obj p.1, p.2)) := by
  simp only [parseVal]
  rw [show skipWs ('\x7b' :: c :: cs) = '\x7b' :: c :: cs from skipWs_of_head
    (by intro x h; simp at h; subst h; decide)]
  have hskip : skipWs (c :: cs) = c :: cs := skipWs_of_head
    (by intro x h; simp at h; subst h; exact hcw)
  split
  · rename_i heq; injection heq with h1 _; exact absurd h1 (by decide)
  · rename_i heq; injection heq with h1 _; exact absurd h1 (by decide)
  · rename_i heq; injection heq with h1 _; exact absurd h1 (by decide)
  · rename_i heq; injection heq with h1 _; exact absurd h1 (by decide)
  · rename_i heq; injection heq with h1 _; exact absurd h1 (by decide)
  · rename_i heq; injection heq with h1 _; exact absurd h1 (by decide)
  · rename_i heq
    injection heq with _ h2
    subst h2
    rw [hskip]
    split
    · rename_i heq2
      injection heq2 with h3 _
      exact absurd h3 hcb
    · rfl
  · rename_i h1 h2 h3 h4 h5 h6 h7
    exact absurd rfl (h7 (c :: cs))

theorem one_le_needItems (vs : List Json) : 1 ≤ needItems vs := by
  cases vs <;> simp [needItems]

theorem one_le_needFields (kvs : List (List Char × Json)) : 1 ≤ needFields kvs := by
  cases kvs with
  | nil => simp [needFields]
  | cons kv kvs => obtain ⟨k, v⟩ := kv; simp [needFields]

/-- `parseVal` ignores leading whitespace. -/
theorem parseVal_ws (f : Nat) (sp X : List Char) (hsp : ∀ c ∈ sp, isWs c = true) :
    parseVal f (sp ++ X) = parseVal f X := by
  cases f with
  | zero => rfl
  | succ f =>
    simp only [parseVal]
    rw [skipWs_append_ws_any sp X hsp]

/-- `parseItems` ignores leading whitespace. -/
theorem parseItems_ws (f : Nat) (sp X : List Char) (hsp : ∀ c ∈ sp, isWs c = true) :
    parseItems f (sp ++ X) = parseItems f X := by
  cases f with
  | zero => rfl
  | succ f =>
    simp only [parseItems]
    rw [parseVal_ws f sp X hsp]

/-- `parseFields` ignores leading whitespace. -/
theorem parseFields_ws (f : Nat) (sp X : List Char) (hsp : ∀ c ∈ sp, isWs c = true) :
    parseFields f (sp ++ X) = parseFields f X := by
  cases f with
  | zero => rfl
  | succ f =>
    simp only [parseFields]
    rw [skipWs_append_ws_any sp X hsp]

/-- Combined induction on fuel: with enough fuel each of the three parsers
inverts the corresponding serializer. -/
theorem parse_dumps_all (fuel : Nat) :
    (∀ v rest, needVal v ≤ fuel →
        (∀ c, rest.head? = some c → c.isDigit = false) →
        parseVal fuel (dumps v ++ rest) = .ok (v, rest))
    ∧ (∀ v vs rest, needItems (v :: vs) ≤ fuel →
        parseItems fuel (dumps v ++ (dumpsItems vs ++ (']' :: rest)))
          = .ok (v :: vs, rest))
    ∧ (∀ k v kvs rest, needFields ((k, v) :: kvs) ≤ fuel →
        parseFields fuel
            (dumpsStr k ++ (':' :: ' ' :: (dumps v ++ (dumpsFields kvs ++ ('\x7d' :: rest)))))
          = .ok ((k, v) :: kvs, rest)) := by
  induction fuel with
  | zero =>
    refine ⟨?_, ?_, ?_⟩
    · intro v rest hf _
      exact absurd hf (by have := one_le_needVal v; omega)
    · intro v vs rest hf
      exact absurd hf (by have := one_le_needItems (v :: vs); omega)
    · intro k v kvs rest hf
      exact absurd hf (by have := one_le_needFields ((k, v) :: kvs); omega)
  | succ f ih =>
    obtain ⟨ihV, ihI, ihF⟩ := ih
    refine ⟨?_, ?_, ?_⟩
    · -- parseVal
      intro v rest hf hrest
      cases v with
      | null => rfl
      | bool b => cases b <;> rfl
      | str s =>
        show (parseStringBody ((escapeStr s ++ ['"']) ++ rest)).map
            (fun p => (Json.str p.1, p.2)) = Except.ok (Json.str s, rest)
        rw [List.append_assoc, List.singleton_append, parseStringBody_escape]
        rfl
      | num n =>
        by_cases hneg : n < 0
        · rw [show dumps (Json.num n) = intToChars n from rfl, intToChars,
            if_pos hneg, List.cons_append]
          show (parseNat (natToChars n.natAbs ++ rest)).map
              (fun p => (Json.num (-(p.1 : Int)), p.2)) = Except.ok (Json.num n, rest)
          rw [parseNat_natToChars _ _ hrest]
          show Except.ok (Json.num (-(n.natAbs : Int)), rest) = Except.ok (Json.num n, rest)
          have hval : -((n.natAbs : Int)) = n := by omega
          rw [hval]
        · rw [show dumps (Json.num n) = intToChars n from rfl, intToChars, if_neg hneg]
          obtain ⟨d, cs, hcons, hd10, _⟩ := natToChars_head n.toNat
          rw [hcons, List.cons_append,
            parseVal_digit f (hexDigitChar d) (isDigit_hexDigitChar hd10) (cs ++ rest),
            ← List.cons_append, ← hcons, parseNat_natToChars _ _ hrest]
          show Except.ok (Json.num ((n.toNat : Int)), rest) = Except.ok (Json.num n, rest)
          have hval : ((n.toNat : Int)) = n := by omega
          rw [hval]
      | arr items =>
        cases items with
        | nil => rfl
        | cons x xs =>
          have hassoc : dumps (Json.arr (x :: xs)) ++ rest
              = '[' :: (dumps x ++ (dumpsItems xs ++ (']' :: rest))) := by
            rw [show dumps (Json.arr (x :: xs))
                = '[' :: (dumps x ++ dumpsItems xs) ++ [']'] from rfl]
            simp
          rw [hassoc]
          obtain ⟨c, cs, hc, hcw, hcr, _⟩ := dumps_head x
          rw [hc, List.cons_append, parseVal_bracket f c hcw hcr _,
            ← List.cons_append, ← hc,
            ihI x xs rest (by
              have hne : needVal (Json.arr (x :: xs)) = 1 + needItems (x :: xs) := rfl
              omega)]
          rfl
      | obj kvs =>
        cases kvs with
        | nil => rfl
        | cons kv kvs =>
          obtain ⟨k, v⟩ := kv
          have hassoc : dumps (Json.obj ((k, v) :: kvs)) ++ rest
              = '\x7b' :: (dumpsStr k
                  ++ (':' :: ' ' :: (dumps v ++ (dumpsFields kvs ++ ('\x7d' :: rest))))) := by
            rw [show dumps (Json.obj ((k, v) :: kvs))
                = '\x7b' :: (dumpsStr k ++ ':' :: ' ' :: dumps v ++ dumpsFields kvs)
                    ++ ['\x7d'] from rfl]
            simp
          rw [hassoc]
          rw [show dumpsStr k
                ++ (':' :: ' ' :: (dumps v ++ (dumpsFields kvs ++ ('\x7d' :: rest))))
              = '"' :: ((escapeStr k ++ ['"'])
                ++ (':' :: ' ' :: (dumps v ++ (dumpsFields kvs ++ ('\x7d' :: rest)))))
            from by simp [dumpsStr]]
          rw [parseVal_brace f '"' (by decide) (by decide) _]
          rw [show '"' :: ((escapeStr k ++ ['"'])
                ++ (':' :: ' ' :: (dumps v ++ (dumpsFields kvs ++ ('\x7d' :: rest)))))
              = dumpsStr k
                ++ (':' :: ' ' :: (dumps v ++ (dumpsFields kvs ++ ('\x7d' :: rest))))
            from by simp [dumpsStr]]
          rw [ihF k v kvs rest (by
            have hne : needVal (Json.obj ((k, v) :: kvs))
                = 1 + needFields ((k, v) :: kvs) := rfl
            omega)]
          rfl
    · -- parseItems
      intro v vs rest hf
      have hmax : needItems (v :: vs) = 1 + max (needVal v) (needItems vs) := rfl
      have hv : needVal v ≤ f := by
        have := Nat.le_max_left (needVal v) (needItems vs); omega
      have hvs : needItems vs ≤ f := by
        have := Nat.le_max_right (needVal v) (needItems vs); omega
      show (match parseVal f (dumps v ++ (dumpsItems vs ++ (']' :: rest))) with
        | .error e => Except.error e
        | .ok (w, rest') =>
          match skipWs rest' with
          | ',' :: rest2 => (parseItems f rest2).map (fun p => (w :: p.1, p.2))
          | ']' :: rest2 => Except.ok ([w], rest2)
          | _ => Except.error PyErr.jsonDecodeError) = Except.ok (v :: vs, rest)
      rw [ihV v (dumpsItems vs ++ (']' :: rest)) hv (by
        cases vs with
        | nil => intro c h; simp [dumpsItems] at h; subst h; decide
        | cons v2 vs' => intro c h; simp [dumpsItems] at h; subst h; decide)]
      cases vs with
      | nil => rfl
      | cons v2 vs' =>
        show (parseItems f (' ' :: ((dumps v2 ++ dumpsItems vs') ++ (']' :: rest)))).map
            (fun p => (v :: p.1, p.2)) = Except.ok (v :: v2 :: vs', rest)
        rw [show (' ' :: ((dumps v2 ++ dumpsItems vs') ++ (']' :: rest)))
            = [' '] ++ ((dumps v2 ++ dumpsItems vs') ++ (']' :: rest)) from rfl]
        rw [parseItems_ws f [' '] _ (by intro c h; simp at h; subst h; decide)]
        rw [List.append_assoc]
        rw [ihI v2 vs' rest hvs]
        rfl
    · -- parseFields
      intro k v kvs rest hf
      have hmax : needFields ((k, v) :: kvs) = 1 + max (needVal v) (needFields kvs) := rfl
      have hv : needVal v ≤ f := by
        have := Nat.le_max_left (needVal v) (needFields kvs); omega
      have hkvs : needFields kvs ≤ f := by
        have := Nat.le_max_right (needVal v) (needFields kvs); omega
      rw [show dumpsStr k
            ++ (':' :: ' ' :: (dumps v ++ (dumpsFields kvs ++ ('\x7d' :: rest))))
          = '"' :: (escapeStr k
            ++ ('"' :: ':' :: ' ' :: (dumps v ++ (dumpsFields kvs ++ ('\x7d' :: rest)))))
        from by simp [dumpsStr]]
      show (match parseStringBody (escapeStr k
            ++ ('"' :: ':' :: ' ' :: (dumps v ++ (dumpsFields kvs ++ ('\x7d' :: rest))))) with
        | .error e => Except.error e
        | .ok (k', rest2) =>
          match skipWs rest2 with
          | ':' :: rest3 =>
            match parseVal f rest3 with
            | .error e => Except.error e
            | .ok (w, rest4) =>
              match skipWs rest4 with
              | ',' :: rest5 => (parseFields f rest5).map (fun p => ((k', w) :: p.1, p.2))
              | '\x7d' :: rest5 => Except.ok ([(k', w)], rest5)
              | _ => Except.error PyErr.jsonDecodeError
          | _ => Except.error PyErr.jsonDecodeError)
        = Except.ok ((k, v) :: kvs, rest)
      rw [parseStringBody_escape]
      show (match parseVal f (' ' :: (dumps v ++ (dumpsFields kvs ++ ('\x7d' :: rest)))) with
        | .error e => Except.error e
        | .ok (w, rest4) =>
          match skipWs rest4 with
          | ',' :: rest5 => (parseFields f rest5).map (fun p => ((k, w) :: p.1, p.2))
          | '\x7d' :: rest5 => Except.ok ([(k, w)], rest5)
          | _ => Except.error PyErr.jsonDecodeError)
        = Except.ok ((k, v) :: kvs, rest)
      rw [show (' ' :: (dumps v ++ (dumpsFields kvs ++ ('\x7d' :: rest))))
          = [' '] ++ (dumps v ++ (dumpsFields kvs ++ ('\x7d' :: rest))) from rfl]
      rw [parseVal_ws f [' '] _ (by intro c h; simp at h; subst h; decide)]
      rw [ihV v (dumpsFields kvs ++ ('\x7d' :: rest)) hv (by
        cases kvs with
        | nil => intro c h; simp [dumpsFields] at h; subst h; decide
        | cons kv2 kvs' =>
          obtain ⟨k2, v2⟩ := kv2
          intro c h; simp [dumpsFields] at h; subst h; decide)]
      cases kvs with
      | nil => rfl
      | cons kv2 kvs' =>
        obtain ⟨k2, v2⟩ := kv2
        show (parseFields f (' ' :: ((dumpsStr k2 ++ ':' :: ' ' :: dumps v2 ++ dumpsFields kvs')
              ++ ('\x7d' :: rest)))).map (fun p => ((k, v) :: p.1, p.2))
            = Except.ok ((k, v) :: (k2, v2) :: kvs', rest)
        rw [show (' ' :: ((dumpsStr k2 ++ ':' :: ' ' :: dumps v2 ++ dumpsFields kvs')
              ++ ('\x7d' :: rest)))
            = [' '] ++ ((dumpsStr k2 ++ ':' :: ' ' :: dumps v2 ++ dumpsFields kvs')
              ++ ('\x7d' :: rest)) from rfl]
        rw [parseFields_ws f [' '] _ (by intro c h; simp at h; subst h; decide)]
        rw [show (dumpsStr k2 ++ ':' :: ' ' :: dumps v2 ++ dumpsFields kvs')
              ++ ('\x7d' :: rest)
            = dumpsStr k2
              ++ (':' :: ' ' :: (dumps v2 ++ (dumpsFields kvs' ++ ('\x7d' :: rest))))
          from by simp]
        rw [ihF k2 v2 kvs' rest hkvs]
        rfl

theorem one_le_dumps_length (v : Json) : 1 ≤ (dumps v).length := by
  obtain ⟨c, cs, hc, _, _, _⟩ := dumps_head v
  rw [hc]
  simp

/-- The fuel bound `needVal` is dominated by the length of the serialized
output, so `loads`' fuel (input length + 1) always suffices. -/
theorem need_le_all (n : Nat) :
    (∀ v, needVal v ≤ n → needVal v ≤ (dumps v).length)
    ∧ (∀ v vs, needItems (v :: vs) ≤ n →
        needItems (v :: vs) ≤ 1 + (dumps v).length + (dumpsItems vs).length)
    ∧ (∀ k v kvs, needFields ((k, v) :: kvs) ≤ n →
        needFields ((k, v) :: kvs)
          ≤ 1 + (dumps v).length + (dumpsFields kvs).length) := by
  induction n with
  | zero =>
    refine ⟨?_, ?_, ?_⟩
    · intro v hf; exact absurd hf (by have := one_le_needVal v; omega)
    · intro v vs hf; exact absurd hf (by have := one_le_needItems (v :: vs); omega)
    · intro k v kvs hf
      exact absurd hf (by have := one_le_needFields ((k, v) :: kvs); omega)
  | succ n ih =>
    obtain ⟨ihV, ihI, ihF⟩ := ih
    refine ⟨?_, ?_, ?_⟩
    · intro v hf
      cases v with
      | null => simp [needVal, dumps]
      | bool b => cases b <;> simp [needVal, dumps]
      | num n => simp [needVal]; exact one_le_dumps_length (Json.num n)
      | str s => simp [needVal]; exact one_le_dumps_length (Json.str s)
      | arr items =>
        cases items with
        | nil => simp [needVal, dumps]
        | cons x xs =>
          have hne : needVal (Json.arr (x :: xs)) = 1 + needItems (x :: xs) := rfl
          have hlen : (dumps (Json.arr (x :: xs))).length
              = 2 + (dumps x).length + (dumpsItems xs).length := by
            rw [show dumps (Json.arr (x :: xs))
                = '[' :: (dumps x ++ dumpsItems xs) ++ [']'] from rfl]
            simp [List.length_append]
            omega
          have hi : needItems (x :: xs) ≤ n := by rw [hne] at hf; omega
          have := ihI x xs hi
          omega
      | obj kvs =>
        cases kvs with
        | nil => simp [needVal, dumps]
        | cons kv kvs =>
          obtain ⟨k, v⟩ := kv
          have hne : needVal (Json.obj ((k, v) :: kvs))
              = 1 + needFields ((k, v) :: kvs) := rfl
          have hlen : (dumps (Json.obj ((k, v) :: kvs))).length
              = 4 + (dumpsStr k).length + (dumps v).length
                + (dumpsFields kvs).length := by
            rw [show dumps (Json.obj ((k, v) :: kvs))
                = '\x7b' :: (dumpsStr k ++ ':' :: ' ' :: dumps v ++ dumpsFields kvs)
                    ++ ['\x7d'] from rfl]
            simp [List.length_append]
            omega
          have hi : needFields ((k, v) :: kvs) ≤ n := by rw [hne] at hf; omega
          have := ihF k v kvs hi
          omega
    · intro v vs hf
      have hne : needItems (v :: vs) = 1 + max (needVal v) (needItems vs) := rfl
      have hv : needVal v ≤ n := by
        have := Nat.le_max_left (needVal v) (needItems vs); omega
      have hbv := ihV v hv
      cases vs with
      | nil =>
        have h1 := one_le_dumps_length v
        have : needItems ([] : List Json) = 1 := rfl
        simp only [hne, this]
        simp [dumpsItems]
        omega
      | cons v2 vs' =>
        have hvs : needItems (v2 :: vs') ≤ n := by
          have := Nat.le_max_right (needVal v) (needItems (v2 :: vs')); omega
        have hb2 := ihI v2 vs' hvs
        have hlen : (dumpsItems (v2 :: vs')).length
            = 2 + (dumps v2).length + (dumpsItems vs').length := by
          rw [show dumpsItems (v2 :: vs')
              = ',' :: ' ' :: (dumps v2 ++ dumpsItems vs') from rfl]
          simp [List.length_append]
          omega
        rw [hne]
        omega
    · intro k v kvs hf
      have hne : needFields ((k, v) :: kvs)
          = 1 + max (needVal v) (needFields kvs) := rfl
      have hv : needVal v ≤ n := by
        have := Nat.le_max_left (needVal v) (needFields kvs); omega
      have hbv := ihV v hv
      cases kvs with
      | nil =>
        have h1 := one_le_dumps_length v
        have : needFields ([] : List (List Char × Json)) = 1 := rfl
        simp only [hne, this]
        simp [dumpsFields]
        omega
      | cons kv2 kvs' =>
        obtain ⟨k2, v2⟩ := kv2
        have hkvs : needFields ((k2, v2) :: kvs') ≤ n := by
          have := Nat.le_max_right (needVal v) (needFields ((k2, v2) :: kvs')); omega
        have hb2 := ihF k2 v2 kvs' hkvs
        have hlen : (dumpsFields ((k2, v2) :: kvs')).length
            = 4 + (dumpsStr k2).length + (dumps v2).length
              + (dumpsFields kvs').length := by
          rw [show dumpsFields ((k2, v2) :: kvs')
              = ',' :: ' ' :: (dumpsStr k2 ++ ':' :: ' ' :: dumps v2
                ++ dumpsFields kvs') from rfl]
          simp [List.length_append]
          omega
        rw [hne]
        omega

/-- `loads` is a left inverse of `dumps`: decoding a serialized value yields
the value back. -/
theorem loads_dumps (v : Json) : loads (dumps v) = .ok v := by
  have hb : needVal v ≤ (dumps v).length := (need_le_all (needVal v)).1 v le_rfl
  have h1 : parseVal ((dumps v).length + 1) (dumps v ++ []) = .ok (v, []) :=
    (parse_dumps_all ((dumps v).length + 1)).1 v [] (by omega)
      (by intro c h; simp at h)
  rw [List.append_nil] at h1
  rw [loads, h1]
  rfl

/-! ## The pipeline (src/main.py)

The external world is passed in explicitly: the pages pypdf would produce
(or its parse failure), the HTTP response of the model service, and the
clock reading `datetime.now()` would return at each insert. -/

/-- Observable side effects of processing one document. -/
inductive Event where
  /-- The single `requests.post` to the model service, with the prompt. -/
  | serviceCall (prompt : List Char)
  /-- The single SQLite `INSERT` for a document. -/
  | dbInsert (filename : List Char)

/-- The f-string prompt of `extract_data_from_pdf`, with the derived document
type and the extracted text interpolated. -/
def buildPrompt (document_type pdf_content : List Char) : List Char :=
  ("\n    You are an expert data extractor who excels at analyzing documents.\n\n    Extract all relevant data from the below document (which was extracted from a PDF document).\n    The document appears to be: ").data
  ++ document_type
  ++ ("\n    \n    Make sure to capture all important information including but not limited to:\n    - Names, addresses, dates, amounts, numbers\n    - Key entities, organizations, people\n    - Important metadata and classifications\n    - Any structured data present\n\n    <content>\n    ").data
  ++ pdf_content
  ++ ("\n    </content>\n\n    Return your response as a JSON object without any extra text or explanation.\n").data

/-- The model service's HTTP response: status code and JSON-decoded body
(`none` when the body is not JSON-decodable, making `response.json()`
raise). -/
structure HttpResponse where
  status : Nat
  body : Option Json

/-- The envelope traversal
`response.json().get("output", [{}])[0].get("content", [{}])[0].get("text", "{}")`
of `extract_data_from_pdf` (the braces in the defaults of the Python source
are the empty dict and the empty JSON object). -/
def envelopeText (body : Json) : Except PyErr Json := do
  let o ← pyGet body ("output").data (Json.arr [Json.obj []])
  let o0 ← pyIndexZero o
  let c ← pyGet o0 ("content").data (Json.arr [Json.obj []])
  let c0 ← pyIndexZero c
  pyGet c0 ("text").data (Json.str ['\x7b', '\x7d'])

/-- `extract_data_from_pdf`: derive the document type from the filename,
build the prompt, perform the single `requests.post` (the recorded
`serviceCall` event), `raise_for_status`, walk the response envelope and
`json.loads` the structured payload.  Returns the decoded value or the
Python exception, together with the emitted events. -/
def extract_data_from_pdf (env : HttpResponse) (pdf_content filename : List Char) :
    Except PyErr Json × List Event :=
  match deriveDocumentType filename with
  | .error e => (.error e, [])
  | .ok document_type =>
    let events := [Event.serviceCall (buildPrompt document_type pdf_content)]
    if 400 ≤ env.status ∧ env.status < 600 then (.error .httpError, events)
    else
      match env.body with
      | none => (.error .jsonDecodeError, events)
      | some body =>
        match envelopeText body with
        | .error e => (.error e, events)
        | .ok (Json.str s) => (loads s, events)
        | .ok _ => (.error .typeError, events)

/-- `get_pdf_content`: open the byte stream as a PDF (the parse outcome is
supplied), then concatenate `page.extract_text()` over all pages in order
with no separator, starting from the empty string. -/
def get_pdf_content (parsed : Except PyErr (List (List Char))) :
    Except PyErr (List Char) :=
  match parsed with
  | .error e => .error e
  | .ok pages => .ok (pages.foldl (fun text page => text ++ page) [])

/-- One row of the `documents` table. -/
structure Row where
  id : Nat
  filename : List Char
  document_type : Json
  extracted_data : List Char
  processed_date : Nat

/-- The `documents` table: rows plus the next `INTEGER PRIMARY KEY` rowid
the engine will assign. -/
structure Db where
  rows : List Row
  nextId : Nat

/-- `setup_database`: `CREATE TABLE IF NOT EXISTS documents (...)`; a fresh
database has no rows and rowids start at 1. -/
def setup_database : Db :=
  { rows := [], nextId := 1 }

/-- `insert_document_data`: one `INSERT` appending a row with the serialized
extraction (`json.dumps(extracted_data)`) and the current timestamp
(`datetime.now().isoformat()`, modelled by the clock reading `now`). -/
def insert_document_data (db : Db) (now : Nat) (filename : List Char)
    (document_type : Json) (extracted_data : Json) : Db :=
  { rows := db.rows ++ [⟨db.nextId, filename, document_type,
      dumps extracted_data, now⟩],
    nextId := db.nextId + 1 }

/-- One input document together with its environment: the pypdf parse
outcome for its bytes and the model service's response to its request. -/
structure Doc where
  file : List Char
  parsedPdf : Except PyErr (List (List Char))
  http : HttpResponse

/-- The reported outcome for one document: the success print with the
extracted details, or the caught exception. -/
inductive Outcome where
  | success (document_type : Json) (details : Json)
  | failure (e : PyErr)

/-- The per-document pipeline inside `main`'s `try`:
`get_pdf_content` → `extract_data_from_pdf` → `.get("document_type",
"unknown")`; any raised exception becomes a `failure` outcome.  Pure part:
independent of the database. -/
def docOutcome (d : Doc) : Outcome × List Event :=
  match get_pdf_content d.parsedPdf with
  | .error e => (.failure e, [])
  | .ok pdf_content =>
    match extract_data_from_pdf d.http pdf_content d.file with
    | (.error e, evs) => (.failure e, evs)
    | (.ok document_details, evs) =>
      match pyGet document_details ("document_type").data
          (Json.str ("unknown").data) with
      | .error e => (.failure e, evs)
      | .ok document_type => (.success document_type document_details, evs)

/-- One iteration of `main`'s loop: run the per-document pipeline and, on
success, `insert_document_data`. -/
def processOne (db : Db) (now : Nat) (d : Doc) : Outcome × Db × List Event :=
  match docOutcome d with
  | (.failure e, evs) => (.failure e, db, evs)
  | (.success document_type document_details, evs) =>
    (.success document_type document_details,
     insert_document_data db now d.file document_type document_details,
     evs ++ [Event.dbInsert d.file])

/-- `main`'s loop over the resolved PDF files, in input order; the clock
advances between documents.  Returns the per-document outcomes in order,
the final database, and all emitted events. -/
def mainLoop (db : Db) (clock : Nat) : List Doc → List Outcome × Db × List Event
  | [] => ([], db, [])
  | d :: ds =>
    let r := processOne db clock d
    let rest := mainLoop r.2.1 (clock + 1) ds
    (r.1 :: rest.1, rest.2.1, r.2.2 ++ rest.2.2)

/-- Number of outbound model-service calls among the events. -/
def countCalls (evs : List Event) : Nat :=
  (evs.filter (fun e => match e with
    | .serviceCall _ => true
    | _ => false)).length

/-- Number of storage appends among the events. -/
def countInserts (evs : List Event) : Nat :=
  (evs.filter (fun e => match e with
    | .dbInsert _ => true
    | _ => false)).length

/-! ## The claims -/

theorem foldl_append_eq_flatten (pages : List (List Char)) (a : List Char) :
    pages.foldl (fun text page => text ++ page) a = a ++ pages.flatten := by
  induction pages generalizing a with
  | nil => simp
  | cons p ps ih => simp [List.foldl_cons, ih, List.flatten_cons]

theorem flatten_eq_nil_of_all_nil {l : List (List Char)} (h : ∀ p ∈ l, p = []) :
    l.flatten = [] := by
  induction l with
  | nil => rfl
  | cons p ps ih =>
    rw [List.flatten_cons, h p (by simp), ih (fun q hq => h q (by simp [hq]))]
    rfl

/-- C8: serializing an ExtractionResult (a JSON-like value whose objects,
coming from Python dicts, have distinct keys) to its storage representation
with `json.dumps` and decoding that string back with `json.loads` yields the
original value, equal in all fields. -/
theorem C8_dumps_loads_roundtrip (v : Json) (_hwf : v.wf = true) :
    loads (dumps v) = .ok v :=
  loads_dumps v

theorem C8_dumps_loads_roundtrip_witness :
    (Json.obj [(("document_type").data, Json.str ("invoice").data),
      (("summary").data, Json.str ("two lines\nat 100\x25").data),
      (("amounts").data, Json.arr [Json.num 42, Json.num (-7)])]).wf = true
    ∧ loads (dumps (Json.obj [(("document_type").data, Json.str ("invoice").data),
        (("summary").data, Json.str ("two lines\nat 100\x25").data),
        (("amounts").data, Json.arr [Json.num 42, Json.num (-7)])]))
      = .ok (Json.obj [(("document_type").data, Json.str ("invoice").data),
        (("summary").data, Json.str ("two lines\nat 100\x25").data),
        (("amounts").data, Json.arr [Json.num 42, Json.num (-7)])]) :=
  ⟨by decide, C8_dumps_loads_roundtrip _ (by decide)⟩

/-- C5: for a parseable document, `get_pdf_content` returns the page texts
concatenated in page order with no inserted separators; no pages, or pages
that all yield no text, give the empty string as a valid (non-error)
output. -/
theorem C5_text_extraction (pages : List (List Char)) :
    get_pdf_content (.ok pages) = .ok pages.flatten
    ∧ get_pdf_content (.ok ([] : List (List Char))) = .ok []
    ∧ ((∀ p ∈ pages, p = []) → get_pdf_content (.ok pages) = .ok []) := by
  have hmain : get_pdf_content (.ok pages) = .ok pages.flatten := by
    rw [get_pdf_content, foldl_append_eq_flatten]
    rfl
  refine ⟨hmain, rfl, fun hall => ?_⟩
  rw [hmain, flatten_eq_nil_of_all_nil hall]

theorem C5_text_extraction_witness :
    get_pdf_content (.ok [("page one ").data, ("page two").data])
      = .ok (("page one page two").data)
    ∧ get_pdf_content (.ok [[], []]) = .ok [] :=
  ⟨((C5_text_extraction [("page one ").data, ("page two").data]).1).trans rfl,
   (C5_text_extraction [[], []]).2.2 (by decide)⟩

/-- C6: persisting a result for the same filename twice appends two distinct
rows — ids assigned monotonically by storage, timestamps freshly read at
each insert (distinct whenever the clock readings differ) — and never
updates or replaces the existing row. -/
theorem C6_append_only (db : Db) (t1 t2 : Nat) (ht : t1 ≠ t2)
    (filename : List Char) (dt1 dt2 x1 x2 : Json) :
    (insert_document_data (insert_document_data db t1 filename dt1 x1)
        t2 filename dt2 x2).rows
      = db.rows ++ [⟨db.nextId, filename, dt1, dumps x1, t1⟩,
          ⟨db.nextId + 1, filename, dt2, dumps x2, t2⟩]
    ∧ db.nextId ≠ db.nextId + 1
    ∧ t1 ≠ t2 := by
  refine ⟨?_, by omega, ht⟩
  simp [insert_document_data]

theorem C6_append_only_witness :
    (insert_document_data (insert_document_data setup_database 5 ("a.pdf").data
        (Json.str ("x").data) Json.null) 6 ("a.pdf").data
        (Json.str ("y").data) Json.null).rows
      = setup_database.rows
        ++ [⟨setup_database.nextId, ("a.pdf").data, Json.str ("x").data,
              dumps Json.null, 5⟩,
            ⟨setup_database.nextId + 1, ("a.pdf").data, Json.str ("y").data,
              dumps Json.null, 6⟩]
    ∧ setup_database.nextId ≠ setup_database.nextId + 1
    ∧ (5 : Nat) ≠ 6 :=
  C6_append_only setup_database 5 6 (by decide) (("a.pdf").data)
    (Json.str ("x").data) (Json.str ("y").data) Json.null Json.null

/-- C3 counterexample: the claim predicts `report.final` for
`report.final.pdf`, but the code derives `report` (the filename has no `/`,
so the code takes everything before the FIRST dot). -/
theorem C3_counterexample :
    deriveDocumentType (("report.final.pdf").data) = .ok (("report").data)
    ∧ ("report").data ≠ ("report.final").data := by
  constructor
  · rfl
  · decide

/-- C3 amended: for a filename with a directory part whose last path segment
has exactly one dot (stem and extension free of `.` and `/`), the derived
type is the stem — so `/a/b/invoice_2023.pdf` gives `invoice_2023`.  For a
filename without `/`, the derived type is the part before the FIRST dot —
so `report.final.pdf` gives `report`, not `report.final`. -/
theorem C3_amended_inferred_type :
    (∀ d s e : List Char, '/' ∉ s → '.' ∉ s → '/' ∉ e → '.' ∉ e →
      deriveDocumentType (d ++ '/' :: (s ++ '.' :: e)) = .ok s)
    ∧ (∀ s e : List Char, '.' ∉ s → '/' ∉ s ++ '.' :: e →
      deriveDocumentType (s ++ '.' :: e) = .ok s) :=
  ⟨fun d s e h1 h2 h3 h4 => deriveDocumentType_slash d s e h1 h2 h3 h4,
   fun s e h1 h2 => deriveDocumentType_no_slash s e h1 h2⟩

theorem C3_amended_inferred_type_witness :
    deriveDocumentType (("/a/b").data
        ++ '/' :: (("invoice_2023").data ++ '.' :: ("pdf").data))
      = .ok (("invoice_2023").data)
    ∧ deriveDocumentType (("report").data ++ '.' :: ("final.pdf").data)
      = .ok (("report").data) :=
  ⟨C3_amended_inferred_type.1 (("/a/b").data) (("invoice_2023").data)
      (("pdf").data) (by decide) (by decide) (by decide) (by decide),
   C3_amended_inferred_type.2 (("report").data) (("final.pdf").data)
      (by decide) (by decide)⟩

/-- C10: a filename that contains `/` but no `.` makes
`extract_data_from_pdf` raise an uncaught `IndexError` while deriving the
document type, before any model-service call is made (no `serviceCall`
event); and for every filename containing a `.` — in particular every path
`main` passes, which ends in `.pdf` — the derivation succeeds, so the error
is unreachable via `main`. -/
theorem C10_slash_no_dot_index_error :
    (∀ (env : HttpResponse) (pdf_content filename : List Char),
      '/' ∈ filename → '.' ∉ filename →
      extract_data_from_pdf env pdf_content filename
        = (.error .indexError, []))
    ∧ (∀ filename : List Char, '.' ∈ filename →
        ∃ t, deriveDocumentType filename = .ok t) := by
  constructor
  · intro env pc f hs hd
    rw [extract_data_from_pdf, deriveDocumentType_slash_no_dot hs hd]
  · exact fun f hd => deriveDocumentType_ok_of_dot hd

theorem C10_slash_no_dot_index_error_witness :
    ('/' ∈ ("a/b").data ∧ '.' ∉ ("a/b").data
      ∧ extract_data_from_pdf ⟨200, some (Json.obj [])⟩ [] (("a/b").data)
          = (.error .indexError, []))
    ∧ ('.' ∈ ("a.pdf").data
      ∧ ∃ t, deriveDocumentType (("a.pdf").data) = .ok t) :=
  ⟨⟨by decide, by decide,
      C10_slash_no_dot_index_error.1 ⟨200, some (Json.obj [])⟩ [] (("a/b").data)
        (by decide) (by decide)⟩,
   ⟨by decide, C10_slash_no_dot_index_error.2 (("a.pdf").data) (by decide)⟩⟩

/-- Once the document type is derived, `extract_data_from_pdf` is the
status check followed by the envelope walk, with the single service call
recorded. -/
theorem extract_ok_derive (env : HttpResponse) (pc f t : List Char)
    (hder : deriveDocumentType f = .ok t) :
    extract_data_from_pdf env pc f
      = (if 400 ≤ env.status ∧ env.status < 600 then
          ((.error .httpError : Except PyErr Json),
            [Event.serviceCall (buildPrompt t pc)])
        else match env.body with
          | none => (.error .jsonDecodeError, [Event.serviceCall (buildPrompt t pc)])
          | some body =>
            match envelopeText body with
            | .error e => (.error e, [Event.serviceCall (buildPrompt t pc)])
            | .ok (Json.str s) => (loads s, [Event.serviceCall (buildPrompt t pc)])
            | .ok _ => (.error .typeError, [Event.serviceCall (buildPrompt t pc)])) := by
  simp only [extract_data_from_pdf, hder]

/-- A JSON object body with no `output` key walks the defaulted envelope
down to the string `"\x7b\x7d"`. -/
theorem envelopeText_no_output (kvs : List (List Char × Json))
    (hlook : lookupField kvs (("output").data) = none) :
    envelopeText (Json.obj kvs) = .ok (Json.str ['\x7b', '\x7d']) := by
  rw [envelopeText]
  rw [show pyGet (Json.obj kvs) (("output").data) (Json.arr [Json.obj []])
      = .ok (Json.arr [Json.obj []]) from by simp [pyGet, hlook]]
  rfl

/-- C4 counterexample: a 200 response whose JSON envelope is the empty
object — the documented output/content/text path entirely absent — yields
the empty JSON object as the extraction value instead of failing. -/
theorem C4_counterexample :
    extract_data_from_pdf ⟨200, some (Json.obj [])⟩ [] (("a.pdf").data)
      = (.ok (Json.obj []),
         [Event.serviceCall (buildPrompt (("a").data) [])]) := rfl

/-- C4 amended: `response.raise_for_status()` raises exactly on 4xx/5xx
statuses; a non-raising response whose body is not JSON-decodable raises a
decode error; and a non-raising JSON object body lacking the `output` key
produces `json.loads("\x7b\x7d")` — the empty object — as a value rather
than an error. -/
theorem C4_amended_service_errors (env : HttpResponse) (pc f t : List Char)
    (hder : deriveDocumentType f = .ok t) :
    (400 ≤ env.status ∧ env.status < 600 →
      extract_data_from_pdf env pc f
        = (.error .httpError, [Event.serviceCall (buildPrompt t pc)]))
    ∧ (¬(400 ≤ env.status ∧ env.status < 600) → env.body = none →
      extract_data_from_pdf env pc f
        = (.error .jsonDecodeError, [Event.serviceCall (buildPrompt t pc)]))
    ∧ (∀ kvs, ¬(400 ≤ env.status ∧ env.status < 600) →
        env.body = some (Json.obj kvs) →
        lookupField kvs (("output").data) = none →
        extract_data_from_pdf env pc f
          = (.ok (Json.obj []), [Event.serviceCall (buildPrompt t pc)])) := by
  refine ⟨?_, ?_, ?_⟩
  · intro h
    rw [extract_ok_derive env pc f t hder, if_pos h]
  · intro h hbody
    rw [extract_ok_derive env pc f t hder, if_neg h, hbody]
  · intro kvs h hbody hlook
    rw [extract_ok_derive env pc f t hder, if_neg h, hbody]
    show (match envelopeText (Json.obj kvs) with
      | .error e => ((.error e : Except PyErr Json),
          [Event.serviceCall (buildPrompt t pc)])
      | .ok (Json.str s) => (loads s, [Event.serviceCall (buildPrompt t pc)])
      | .ok _ => (.error .typeError, [Event.serviceCall (buildPrompt t pc)]))
      = (.ok (Json.obj []), [Event.serviceCall (buildPrompt t pc)])
    rw [envelopeText_no_output kvs hlook]
    rfl

theorem C4_amended_service_errors_witness :
    extract_data_from_pdf ⟨401, some (Json.obj [])⟩ [] (("a.pdf").data)
      = (.error .httpError, [Event.serviceCall (buildPrompt (("a").data) [])])
    ∧ extract_data_from_pdf ⟨200, none⟩ [] (("a.pdf").data)
      = (.error .jsonDecodeError, [Event.serviceCall (buildPrompt (("a").data) [])])
    ∧ extract_data_from_pdf ⟨200, some (Json.obj [(("id").data, Json.num 1)])⟩
        [] (("a.pdf").data)
      = (.ok (Json.obj []), [Event.serviceCall (buildPrompt (("a").data) [])]) :=
  ⟨(C4_amended_service_errors ⟨401, some (Json.obj [])⟩ [] (("a.pdf").data)
      (("a").data) rfl).1 (by decide),
   (C4_amended_service_errors ⟨200, none⟩ [] (("a.pdf").data)
      (("a").data) rfl).2.1 (by decide) rfl,
   (C4_amended_service_errors ⟨200, some (Json.obj [(("id").data, Json.num 1)])⟩
      [] (("a.pdf").data) (("a").data) rfl).2.2
     [(("id").data, Json.num 1)] (by decide) rfl rfl⟩

/-- C2 counterexample: a decoded model response missing `summary` and every
optional field (`people`, `dates`, ...) is returned by the pipeline
unchanged — no empty defaults are filled in and no SchemaMismatchError (nor
any other error) is raised. -/
theorem C2_counterexample :
    extract_data_from_pdf
        ⟨200, some (Json.obj [(("output").data, Json.arr [Json.obj
          [(("content").data, Json.arr [Json.obj
            [(("text").data,
              Json.str (("\x7b\"document_type\": \"x\"\x7d").data))]])]])])⟩
        [] (("a.pdf").data)
      = (.ok (Json.obj [(("document_type").data, Json.str (("x").data))]),
         [Event.serviceCall (buildPrompt (("a").data) [])])
    ∧ lookupField [(("document_type").data, Json.str (("x").data))]
        (("summary").data) = none
    ∧ lookupField [(("document_type").data, Json.str (("x").data))]
        (("people").data) = none :=
  ⟨rfl, rfl, rfl⟩

/-- C2 amended: the pipeline performs no client-side schema validation or
coercion.  Whatever JSON value the service's `text` payload decodes to is
returned verbatim: missing optional fields stay missing (no empty
defaults), and a value missing `summary` is returned successfully rather
than rejected.  The schema (with its required `document_type` and
`summary`) is only declared to the service inside the request, with
`strict: False`. -/
theorem C2_amended_no_validation (env : HttpResponse) (pc f t : List Char)
    (hder : deriveDocumentType f = .ok t)
    (hst : ¬(400 ≤ env.status ∧ env.status < 600))
    (body : Json) (hbody : env.body = some body)
    (s : List Char) (henv : envelopeText body = .ok (Json.str s))
    (v : Json) (hs : loads s = .ok v) :
    extract_data_from_pdf env pc f
      = (.ok v, [Event.serviceCall (buildPrompt t pc)]) := by
  rw [extract_ok_derive env pc f t hder, if_neg hst, hbody]
  show (match envelopeText body with
    | .error e => ((.error e : Except PyErr Json),
        [Event.serviceCall (buildPrompt t pc)])
    | .ok (Json.str s) => (loads s, [Event.serviceCall (buildPrompt t pc)])
    | .ok _ => (.error .typeError, [Event.serviceCall (buildPrompt t pc)]))
    = (.ok v, [Event.serviceCall (buildPrompt t pc)])
  rw [henv]
  show (loads s, [Event.serviceCall (buildPrompt t pc)])
    = ((.ok v : Except PyErr Json), [Event.serviceCall (buildPrompt t pc)])
  rw [hs]

theorem C2_amended_no_validation_witness :
    extract_data_from_pdf
        ⟨200, some (Json.obj [(("output").data, Json.arr [Json.obj
          [(("content").data, Json.arr [Json.obj
            [(("text").data,
              Json.str (("\x7b\"amounts\": []\x7d").data))]])]])])⟩
        [] (("a.pdf").data)
      = (.ok (Json.obj [(("amounts").data, Json.arr [])]),
         [Event.serviceCall (buildPrompt (("a").data) [])]) :=
  C2_amended_no_validation
    ⟨200, some (Json.obj [(("output").data, Json.arr [Json.obj
      [(("content").data, Json.arr [Json.obj
        [(("text").data, Json.str (("\x7b\"amounts\": []\x7d").data))]])]])])⟩
    [] (("a.pdf").data) (("a").data) rfl (by decide) _ rfl
    (("\x7b\"amounts\": []\x7d").data) rfl
    (Json.obj [(("amounts").data, Json.arr [])]) rfl

/-- C9: a successfully processed document whose decoded response has no
`document_type` key is persisted with the literal string `"unknown"` in the
document-type column (not the filename-derived hint), while the full
decoded response is serialized unchanged into the extracted-data column. -/
theorem C9_unknown_document_type (db : Db) (now : Nat) (d : Doc)
    (content : List Char) (kvs : List (List Char × Json)) (evs : List Event)
    (hpdf : get_pdf_content d.parsedPdf = .ok content)
    (hex : extract_data_from_pdf d.http content d.file = (.ok (Json.obj kvs), evs))
    (hmiss : lookupField kvs (("document_type").data) = none) :
    processOne db now d
      = (.success (Json.str (("unknown").data)) (Json.obj kvs),
         { rows := db.rows ++ [⟨db.nextId, d.file, Json.str (("unknown").data),
             dumps (Json.obj kvs), now⟩],
           nextId := db.nextId + 1 },
         evs ++ [Event.dbInsert d.file]) := by
  have hout : docOutcome d
      = (.success (Json.str (("unknown").data)) (Json.obj kvs), evs) := by
    simp only [docOutcome, hpdf, hex]
    simp [pyGet, hmiss]
  simp only [processOne, hout, insert_document_data]

theorem C9_unknown_document_type_witness :
    processOne setup_database 7
      ⟨("a.pdf").data, .ok [("hi").data],
        ⟨200, some (Json.obj [(("output").data, Json.arr [Json.obj
          [(("content").data, Json.arr [Json.obj
            [(("text").data,
              Json.str (("\x7b\"summary\": \"s\"\x7d").data))]])]])])⟩⟩
      = (.success (Json.str (("unknown").data))
           (Json.obj [(("summary").data, Json.str (("s").data))]),
         { rows := setup_database.rows
             ++ [⟨setup_database.nextId, ("a.pdf").data,
                 Json.str (("unknown").data),
                 dumps (Json.obj [(("summary").data, Json.str (("s").data))]), 7⟩],
           nextId := setup_database.nextId + 1 },
         [Event.serviceCall (buildPrompt (("a").data) (("hi").data))]
           ++ [Event.dbInsert (("a.pdf").data)]) :=
  C9_unknown_document_type setup_database 7 _ (("hi").data)
    [(("summary").data, Json.str (("s").data))]
    [Event.serviceCall (buildPrompt (("a").data) (("hi").data))]
    rfl rfl rfl

/-- After a successful type derivation the recorded events are exactly the
one service call, whatever the response was. -/
theorem extract_events_call (env : HttpResponse) (pc f t : List Char)
    (hder : deriveDocumentType f = .ok t) :
    (extract_data_from_pdf env pc f).2 = [Event.serviceCall (buildPrompt t pc)] := by
  rw [extract_ok_derive env pc f t hder]
  split
  · rfl
  · split
    · rfl
    · split <;> rfl

/-- `extract_data_from_pdf` performs no service call or exactly one. -/
theorem extract_events_shape (env : HttpResponse) (pc f : List Char) :
    (extract_data_from_pdf env pc f).2 = []
    ∨ ∃ p, (extract_data_from_pdf env pc f).2 = [Event.serviceCall p] := by
  cases hder : deriveDocumentType f with
  | error e =>
    left
    simp only [extract_data_from_pdf, hder]
  | ok t =>
    right
    exact ⟨buildPrompt t pc, extract_events_call env pc f t hder⟩

/-- When text extraction succeeds, the pipeline's events are exactly those
of `extract_data_from_pdf`. -/
theorem docOutcome_events_of_ok (d : Doc) (content : List Char)
    (hp : get_pdf_content d.parsedPdf = .ok content) :
    (docOutcome d).2 = (extract_data_from_pdf d.http content d.file).2 := by
  simp only [docOutcome, hp]
  rcases hex : extract_data_from_pdf d.http content d.file with ⟨res, evs⟩
  cases res with
  | error e => rfl
  | ok details =>
    show (match pyGet details (("document_type").data) (Json.str (("unknown").data)) with
      | Except.error e => (Outcome.failure e, evs)
      | Except.ok document_type => (Outcome.success document_type details, evs)).2 = evs
    split <;> rfl

theorem docOutcome_events (d : Doc) :
    (docOutcome d).2 = [] ∨ ∃ p, (docOutcome d).2 = [Event.serviceCall p] := by
  cases hp : get_pdf_content d.parsedPdf with
  | error e =>
    left
    simp only [docOutcome, hp]
  | ok content =>
    rw [docOutcome_events_of_ok d content hp]
    exact extract_events_shape d.http content d.file

theorem processOne_events (db : Db) (now : Nat) (d : Doc) :
    (processOne db now d).2.2 = (docOutcome d).2
    ∨ (processOne db now d).2.2 = (docOutcome d).2 ++ [Event.dbInsert d.file] := by
  rcases ho : docOutcome d with ⟨o, evs⟩
  cases o with
  | success dt det =>
    right
    simp only [processOne, ho]
  | failure e =>
    left
    simp only [processOne, ho]

/-- C7: for every document, processing performs at most one outbound
model-service call and at most one storage append; and whenever text
extraction succeeds — including when it returns the empty string — and the
filename contains a dot (as every path `main` passes does), exactly one
model-service call is made. -/
theorem C7_single_call_single_append (db : Db) (now : Nat) (d : Doc) :
    countCalls (processOne db now d).2.2 ≤ 1
    ∧ countInserts (processOne db now d).2.2 ≤ 1
    ∧ (∀ content, get_pdf_content d.parsedPdf = .ok content → '.' ∈ d.file →
        countCalls (processOne db now d).2.2 = 1) := by
  have hcc_append : ∀ (evs : List Event) (fl : List Char),
      countCalls (evs ++ [Event.dbInsert fl]) = countCalls evs := by
    intro evs fl
    simp [countCalls, List.filter_append]
  have hci_append : ∀ (evs : List Event) (fl : List Char),
      countInserts (evs ++ [Event.dbInsert fl]) = countInserts evs + 1 := by
    intro evs fl
    simp [countInserts, List.filter_append]
  have hdo := docOutcome_events d
  have hpo := processOne_events db now d
  have hcalls : countCalls (docOutcome d).2 ≤ 1 := by
    rcases hdo with h | ⟨p, h⟩ <;> rw [h] <;> simp [countCalls]
  have hins : countInserts (docOutcome d).2 = 0 := by
    rcases hdo with h | ⟨p, h⟩ <;> rw [h] <;> simp [countInserts]
  refine ⟨?_, ?_, ?_⟩
  · rcases hpo with h | h <;> rw [h]
    · exact hcalls
    · rw [hcc_append]
      exact hcalls
  · rcases hpo with h | h <;> rw [h]
    · omega
    · rw [hci_append, hins]
  · intro content hcontent hdot
    obtain ⟨t, ht⟩ := deriveDocumentType_ok_of_dot hdot
    have hevs : (docOutcome d).2 = [Event.serviceCall (buildPrompt t content)] := by
      rw [docOutcome_events_of_ok d content hcontent,
        extract_events_call d.http content d.file t ht]
    rcases hpo with h | h
    · rw [h, hevs]
      rfl
    · rw [h, hcc_append, hevs]
      rfl

theorem C7_single_call_single_append_witness :
    get_pdf_content (Except.ok ([] : List (List Char))) = .ok []
    ∧ '.' ∈ ("a.pdf").data
    ∧ countCalls (processOne setup_database 0
        ⟨("a.pdf").data, .ok [], ⟨500, none⟩⟩).2.2 = 1 :=
  ⟨rfl, by decide,
    (C7_single_call_single_append setup_database 0
        ⟨("a.pdf").data, .ok [], ⟨500, none⟩⟩).2.2 [] rfl (by decide)⟩

/-- C1: for the batch [A (valid), B (corrupt bytes), C (valid)] the reported
outcomes are success, failure, success in that order; exactly the two rows
for A and C are appended (with consecutive storage-assigned ids); and B's
failure leaves the database of its iteration untouched, so it neither
leaves a partial row nor affects C. -/
theorem C1_failure_isolation (db : Db) (clock : Nat) (A B C : Doc)
    (dtA vA dtC vC : Json) (eB : PyErr)
    (hA : (docOutcome A).1 = .success dtA vA)
    (hB : B.parsedPdf = .error eB)
    (hC : (docOutcome C).1 = .success dtC vC) :
    (mainLoop db clock [A, B, C]).1
      = [.success dtA vA, .failure eB, .success dtC vC]
    ∧ (mainLoop db clock [A, B, C]).2.1.rows
      = db.rows ++ [⟨db.nextId, A.file, dtA, dumps vA, clock⟩,
          ⟨db.nextId + 1, C.file, dtC, dumps vC, clock + 1 + 1⟩]
    ∧ (∀ (mid : Db) (t : Nat), processOne mid t B = (.failure eB, mid, [])) := by
  rcases hA' : docOutcome A with ⟨oA, evsA⟩
  rw [hA'] at hA
  simp only at hA
  subst hA
  rcases hC' : docOutcome C with ⟨oC, evsC⟩
  rw [hC'] at hC
  simp only at hC
  subst hC
  have hB2 : docOutcome B = (.failure eB, []) := by
    simp only [docOutcome, get_pdf_content, hB]
  have hPB : ∀ (mid : Db) (t : Nat), processOne mid t B = (.failure eB, mid, []) := by
    intro mid t
    simp only [processOne, hB2]
  have e1 : processOne db clock A
      = (.success dtA vA, insert_document_data db clock A.file dtA vA,
         evsA ++ [Event.dbInsert A.file]) := by
    simp only [processOne, hA']
  have e3 : ∀ (mid : Db) (t : Nat), processOne mid t C
      = (.success dtC vC, insert_document_data mid t C.file dtC vC,
         evsC ++ [Event.dbInsert C.file]) := by
    intro mid t
    simp only [processOne, hC']
  refine ⟨?_, ?_, hPB⟩
  · simp only [mainLoop, e1, hPB, e3]
  · simp only [mainLoop, e1, hPB, e3, insert_document_data]
    simp

/-- A concrete valid document (parseable PDF, well-formed 200 response). -/
def docA : Doc :=
  ⟨("a.pdf").data, .ok [("hi").data],
    ⟨200, some (Json.obj [(("output").data, Json.arr [Json.obj
      [(("content").data, Json.arr [Json.obj
        [(("text").data,
          Json.str (("\x7b\"document_type\": \"inv\", \"summary\": \"s\"\x7d").data))]])]])])⟩⟩

/-- A concrete document whose bytes cannot be parsed as a PDF. -/
def docB : Doc := ⟨("b.pdf").data, .error .pdfReadError, ⟨200, none⟩⟩

/-- A second concrete valid document. -/
def docC : Doc :=
  ⟨("c.pdf").data, .ok [("yo").data],
    ⟨200, some (Json.obj [(("output").data, Json.arr [Json.obj
      [(("content").data, Json.arr [Json.obj
        [(("text").data,
          Json.str (("\x7b\"document_type\": \"rcpt\", \"summary\": \"t\"\x7d").data))]])]])])⟩⟩

/-- The decoded extraction for `docA`. -/
def objA : Json :=
  Json.obj [(("document_type").data, Json.str (("inv").data)),
    (("summary").data, Json.str (("s").data))]

/-- The decoded extraction for `docC`. -/
def objC : Json :=
  Json.obj [(("document_type").data, Json.str (("rcpt").data)),
    (("summary").data, Json.str (("t").data))]

theorem C1_failure_isolation_witness :
    (mainLoop setup_database 0 [docA, docB, docC]).1
      = [.success (Json.str (("inv").data)) objA, .failure .pdfReadError,
         .success (Json.str (("rcpt").data)) objC]
    ∧ (mainLoop setup_database 0 [docA, docB, docC]).2.1.rows
      = setup_database.rows
        ++ [⟨setup_database.nextId, docA.file, Json.str (("inv").data),
              dumps objA, 0⟩,
            ⟨setup_database.nextId + 1, docC.file, Json.str (("rcpt").data),
              dumps objC, 0 + 1 + 1⟩]
    ∧ (∀ (mid : Db) (t : Nat),
        processOne mid t docB = (.failure .pdfReadError, mid, [])) :=
  C1_failure_isolation setup_database 0 docA docB docC
    (Json.str (("inv").data)) objA (Json.str (("rcpt").data)) objC .pdfReadError
    rfl rfl rfl
